import Mathlib

/-!
Verification of the briscola-ai core against its specification.

The definitions below are a shallow embedding of the Python sources
`src/briscola_ai/core/cards.py`, `core/env.py`, `core/determinization.py`,
`core/heuristics.py`, `agents/rule_based.py` and `agents/mcts.py`.
Python machine integers are modelled as `Nat`; functions that can raise an
exception return `Option`; the pseudo-random shuffle is modelled by an
arbitrary permutation-producing function passed explicitly; Python floats
in the heuristic prior are modelled over `ℚ` with `math.exp` abstracted as
an arbitrary strictly positive function.
-/

set_option maxRecDepth 4000

namespace Briscola

/-- The four suits, in the declaration order of `class Suit` in cards.py. -/
inductive Suit
  | denari
  | coppe
  | bastoni
  | spade
deriving DecidableEq, Fintype, Inhabited

/-- The ten ranks, written `A,3,K,C,F,7,6,5,4,2` in cards.py. -/
inductive Rank
  | A
  | N3
  | K
  | C
  | F
  | N7
  | N6
  | N5
  | N4
  | N2
deriving DecidableEq, Fintype, Inhabited

/-- `RANK_ORDER = ["A","3","K","C","F","7","6","5","4","2"]` (take order,
strongest first). -/
def RANK_ORDER : List Rank :=
  [Rank.A, Rank.N3, Rank.K, Rank.C, Rank.F, Rank.N7, Rank.N6, Rank.N5, Rank.N4, Rank.N2]

/-- `order_index = {r: idx for idx, r in enumerate(RANK_ORDER)}` of
`stronger_in_suit`: position in `RANK_ORDER`, smaller index = stronger. -/
def order_index : Rank → Nat
  | Rank.A => 0
  | Rank.N3 => 1
  | Rank.K => 2
  | Rank.C => 3
  | Rank.F => 4
  | Rank.N7 => 5
  | Rank.N6 => 6
  | Rank.N5 => 7
  | Rank.N4 => 8
  | Rank.N2 => 9

/-- `POINTS = {"A": 11, "3": 10, "K": 4, "C": 3, "F": 2, "7": 0, ...}`. -/
def POINTS : Rank → Nat
  | Rank.A => 11
  | Rank.N3 => 10
  | Rank.K => 4
  | Rank.C => 3
  | Rank.F => 2
  | Rank.N7 => 0
  | Rank.N6 => 0
  | Rank.N5 => 0
  | Rank.N4 => 0
  | Rank.N2 => 0

/-- `Card` dataclass: frozen pair of suit and rank. -/
structure Card where
  suit : Suit
  rank : Rank
deriving DecidableEq, Fintype, Inhabited

/-- `Card.points(self)`. -/
def Card.points (c : Card) : Nat := POINTS c.rank

/-- `all_deck()`: the 40 cards, suits in declaration order, ranks in
`RANK_ORDER` order. -/
def all_deck : List Card :=
  [Suit.denari, Suit.coppe, Suit.bastoni, Suit.spade].flatMap
    (fun s => RANK_ORDER.map (fun r => Card.mk s r))

/-- `stronger_in_suit(a, b)`: the stronger of two cards assuming equal suits;
raises `ValueError` (here: `none`) when the suits differ.  It returns `a`
exactly when `a`'s rank is strictly earlier in `RANK_ORDER`. -/
def stronger_in_suit (a b : Card) : Option Card :=
  if a.suit ≠ b.suit then none
  else if order_index a.rank < order_index b.rank then some a else some b

/-- `trick_winner(lead, follow, briscola)`: 0 when the lead card wins the
trick, 1 when the follow card wins.  The Python code tests
`stronger_in_suit(lead, follow) is lead`; since `stronger_in_suit` always
returns one of its two arguments, for distinct cards this is an equality
test with `lead`, which is the way it is modelled here.  A failure of
`stronger_in_suit` propagates as `none`. -/
def trick_winner (lead follow : Card) (briscola : Suit) : Option Nat :=
  let lead_is_trump := lead.suit = briscola
  let foll_is_trump := follow.suit = briscola
  if lead_is_trump ∧ foll_is_trump then
    (stronger_in_suit lead follow).map (fun c => if c = lead then 0 else 1)
  else if foll_is_trump ∧ ¬ lead_is_trump then
    some 1
  else if follow.suit ≠ lead.suit ∧ ¬ foll_is_trump then
    some 0
  else
    (stronger_in_suit lead follow).map (fun c => if c = lead then 0 else 1)

/-- `trick_points((lead, follow))`: sum of the two cards' point values. -/
def trick_points (lead follow : Card) : Nat := lead.points + follow.points

end Briscola

namespace Briscola

/-- C1 -- `trick_winner` returns FOLLOW (1) whenever the follow card is trump
and the lead is not; returns LEAD (0) whenever the follow card is neither
trump nor of the lead's suit; and when both cards are trump, or both share
the lead's non-trump suit, the winner is the card strictly earlier in the
fixed strength order A > 3 > K > C > F > 7 > 6 > 5 > 4 > 2 (for the distinct
cards that occur in play, suits equal forces ranks to differ, so `order_index`
decides the winner outright), independent of point value. -/
theorem trick_winner_rule (lead follow : Card) (briscola : Suit) :
    (follow.suit = briscola → lead.suit ≠ briscola →
      trick_winner lead follow briscola = some 1) ∧
    (follow.suit ≠ briscola → follow.suit ≠ lead.suit →
      trick_winner lead follow briscola = some 0) ∧
    ((lead.suit = briscola ∧ follow.suit = briscola) ∨
        (follow.suit = lead.suit ∧ lead.suit ≠ briscola) →
      lead.rank ≠ follow.rank →
      trick_winner lead follow briscola =
        some (if order_index lead.rank < order_index follow.rank then 0 else 1)) := by
  revert lead follow briscola
  decide

/-- Witness for C1: trump = spade, lead = A of coppe, follow = 2 of spade:
the follow trump wins; and two coppe cards with bastoni trump go to the
stronger rank. -/
theorem trick_winner_rule_witness :
    trick_winner (Card.mk Suit.coppe Rank.A) (Card.mk Suit.spade Rank.N2) Suit.spade =
      some 1 ∧
    trick_winner (Card.mk Suit.coppe Rank.A) (Card.mk Suit.coppe Rank.N3) Suit.bastoni =
      some 0 := by
  refine ⟨(trick_winner_rule _ _ _).1 (by decide) (by decide), ?_⟩
  have h := (trick_winner_rule (Card.mk Suit.coppe Rank.A)
      (Card.mk Suit.coppe Rank.N3) Suit.bastoni).2.2 (Or.inr (by decide)) (by decide)
  simpa using h

/-- `Observation` dataclass of env.py. -/
structure Observation where
  player : Nat
  hand : List Card
  briscola : Suit
  lead_card : Option Card
  deck_count : Nat
  trick_points_so_far : Nat
  played : List Card
  opponent_count : Nat
deriving DecidableEq, Inhabited

/-- The mutable state of `BriscolaEnv` (the `rng` field is not part of the
game state proper and is modelled outside the structure: randomness enters
only through the initial shuffle and the determinizer's shuffle). -/
structure GameState where
  trump_card : Option Card
  briscola : Suit
  deck : List Card
  hand0 : List Card
  hand1 : List Card
  points0 : Nat
  points1 : Nat
  leader : Nat
  turn_player : Nat
  lead_card : Option Card
  follow_card : Option Card
  played : List Card
  done : Bool
deriving DecidableEq, Inhabited

/-- `self.hands[p]` for the players 0 and 1. -/
def hand (s : GameState) (p : Nat) : List Card :=
  if p = 0 then s.hand0 else s.hand1

/-- `self.hands[p] = l`. -/
def setHand (s : GameState) (p : Nat) (l : List Card) : GameState :=
  if p = 0 then { s with hand0 := l } else { s with hand1 := l }

/-- `self.points[w] += g` for the players 0 and 1. -/
def addPoints (s : GameState) (w : Nat) (g : Nat) : GameState :=
  if w = 0 then { s with points0 := s.points0 + g } else { s with points1 := s.points1 + g }

/-- Point value of an optional card slot (`None` contributes nothing). -/
def optPts : Option Card → Nat
  | none => 0
  | some c => c.points

/-- `BriscolaEnv.observe(player)`: the legal projection of the state. -/
def observe (s : GameState) (player : Nat) : Observation :=
  { player := player
    hand := hand s player
    briscola := s.briscola
    lead_card := if player = 1 - s.leader then s.lead_card else none
    deck_count := s.deck.length
    trick_points_so_far := optPts s.lead_card + optPts s.follow_card
    played := s.played
    opponent_count := (hand s (1 - player)).length }

/-- One pass of the draw loop body in `step`: `who` draws from the deck if
non-empty, otherwise takes the face-up trump card if still there, otherwise
nothing. -/
def draw_one (s : GameState) (who : Nat) : GameState :=
  match s.deck with
  | c :: rest => { setHand s who (hand s who ++ [c]) with deck := rest }
  | [] =>
    match s.trump_card with
    | some t => { setHand s who (hand s who ++ [t]) with trump_card := none }
    | none => s

/-- `self.follow_card = card`. -/
def set_follow (s : GameState) (c : Card) : GameState := { s with follow_card := some c }

/-- `self.played.append(lead); self.played.append(follow)`. -/
def push_played (s : GameState) (lead c : Card) : GameState :=
  { s with played := s.played ++ [lead, c] }

/-- `self.leader = winner; self.turn_player = self.leader;
self.lead_card = None; self.follow_card = None`. -/
def clear_table (s : GameState) (winner : Nat) : GameState :=
  { s with leader := winner, turn_player := winner,
           lead_card := none, follow_card := none }

/-- `if not hands[0] and not hands[1] and trump_card is None and not deck:
self.done = True` (the flag is only ever raised, never lowered). -/
def set_done (s : GameState) : GameState :=
  { s with done := s.done || decide (s.hand0 = [] ∧ s.hand1 = [] ∧
      s.trump_card = none ∧ s.deck = []) }

/-- The state reached by the second half of `step` (follow card played),
after the played card has already been removed from the hand.  Mirrors the
statement order of the Python code: follow slot filled, winner scored,
cards recorded, winner-then-loser draws, new trick set up, terminal test. -/
def resolve_trick (s : GameState) (lead card : Card) (winner : Nat) : GameState :=
  set_done
    (clear_table
      (draw_one
        (draw_one
          (push_played (addPoints (set_follow s card) winner (trick_points lead card))
            lead card)
          winner)
        (1 - winner))
      winner)

/-- `BriscolaEnv.step(player, action_idx)`.  `none` models an exception:
the `assert` on the terminal flag and turn order, an out-of-range `pop`,
and the `TypeError` that `trick_winner(None, ...)` would raise when no lead
card is on the table in the follow branch. -/
def step (s : GameState) (player : Nat) (action : Nat) : Option GameState :=
  if s.done then none
  else if player ≠ s.turn_player then none
  else
    match (hand s player).get? action with
    | none => none
    | some card =>
      let s0 := setHand s player ((hand s player).eraseIdx action)
      if s0.turn_player = s0.leader then
        some { s0 with lead_card := some card, turn_player := 1 - player }
      else
        match s0.lead_card with
        | none => none
        | some lead =>
          match trick_winner lead card s0.briscola with
          | none => none
          | some winner_rel =>
            let winner := if winner_rel = 0 then s0.leader else 1 - s0.leader
            some (resolve_trick s0 lead card winner)

/-- `BriscolaEnv.reset()` run on an already-shuffled deck `d`: the last card
becomes the face-up trump, three cards are dealt alternately to each hand
from the front, player 0 leads.  `none` models the exhaustion that `pop`
would raise on a deck of fewer than 7 cards (never happens on 40). -/
def initState (d : List Card) : Option GameState :=
  match d.getLast? with
  | none => none
  | some trump =>
    match d.dropLast with
    | c0 :: c1 :: c2 :: c3 :: c4 :: c5 :: rest =>
      some { trump_card := some trump
             briscola := trump.suit
             deck := rest
             hand0 := [c0, c2, c4]
             hand1 := [c1, c3, c5]
             points0 := 0
             points1 := 0
             leader := 0
             turn_player := 0
             lead_card := none
             follow_card := none
             played := []
             done := false }
    | _ => none

/-- Reachability by legal `step` calls. -/
inductive Steps : GameState → GameState → Prop
  | refl (s : GameState) : Steps s s
  | tail {s t u : GameState} {p a : Nat} :
      Steps s t → step t p a = some u → Steps s u

/-- Run a list of actions, each played by whoever holds the turn. -/
def runA (s : GameState) : List Nat → Option GameState
  | [] => some s
  | a :: rest =>
    match step s s.turn_player a with
    | none => none
    | some s1 => runA s1 rest

theorem runA_steps : ∀ (l : List Nat) (s s' : GameState),
    runA s l = some s' → Steps s s' := by
  intro l
  induction l with
  | nil => intro s s' h; cases h; exact Steps.refl _
  | cons a rest ih =>
    intro s s' h
    unfold runA at h
    cases hs : step s s.turn_player a with
    | none => rw [hs] at h; cases h
    | some s1 =>
      rw [hs] at h
      have h1 := ih s1 s' h
      -- prepend the first step in front of the tail run
      have : Steps s s1 := Steps.tail (Steps.refl s) hs
      clear hs h
      induction h1 with
      | refl => exact this
      | tail hst hstep ih2 => exact Steps.tail ih2 hstep

/-- List view of an optional card slot. -/
def optList : Option Card → List Card
  | none => []
  | some c => [c]

@[simp] theorem optList_none : optList none = [] := rfl

@[simp] theorem optList_some (c : Card) : optList (some c) = [c] := rfl

@[simp] theorem hand_zero (s : GameState) : hand s 0 = s.hand0 := rfl

@[simp] theorem hand_one (s : GameState) : hand s 1 = s.hand1 := by
  unfold hand
  simp

/-- All cards present in a state, as a multiset: both hands, the stock, the
face-up trump, the two table slots and the played record. -/
def cardsM (s : GameState) : Multiset Card :=
  (s.hand0 : Multiset Card) + (s.hand1 : Multiset Card) + (s.deck : Multiset Card) +
    (optList s.trump_card : Multiset Card) + (optList s.lead_card : Multiset Card) +
    (optList s.follow_card : Multiset Card) + (s.played : Multiset Card)

/-- Total point value of a list of cards. -/
def ptsSum (l : List Card) : Nat := (l.map Card.points).sum

/-- The state invariant maintained by `step` from the initial deal:
the 40 cards are exactly distributed over the state's card slots, the
scores equal the points of the played record, no follow card rests on the
table between steps, players are 0/1, a lead card on the table means the
follower is to move, and the terminal flag certifies global exhaustion. -/
structure Inv (s : GameState) : Prop where
  perm : cardsM s = (all_deck : Multiset Card)
  score : s.points0 + s.points1 = ptsSum s.played
  follow_none : s.follow_card = none
  turn01 : s.turn_player = 0 ∨ s.turn_player = 1
  lead01 : s.leader = 0 ∨ s.leader = 1
  leadTurn : ∀ c, s.lead_card = some c → s.turn_player = 1 - s.leader
  doneE : s.done = true →
    s.hand0 = [] ∧ s.hand1 = [] ∧ s.deck = [] ∧ s.trump_card = none ∧ s.lead_card = none

theorem coe_eraseIdx_get : ∀ (l : List Card) (i : Nat) (c : Card),
    l.get? i = some c → (l : Multiset Card) = c ::ₘ (l.eraseIdx i : Multiset Card) := by
  intro l
  induction l with
  | nil => intro i c h; cases i <;> cases h
  | cons x xs ih =>
    intro i c h
    cases i with
    | zero =>
      simp only [List.get?] at h
      cases h
      simp [List.eraseIdx]
    | succ j =>
      simp only [List.get?] at h
      have := ih j c h
      simp only [List.eraseIdx]
      rw [← Multiset.cons_coe, ← Multiset.cons_coe, this]
      exact Multiset.cons_swap x c _

@[simp] theorem setHand_trump (s : GameState) (p : Nat) (l : List Card) :
    (setHand s p l).trump_card = s.trump_card := by unfold setHand; split <;> rfl

@[simp] theorem setHand_briscola (s : GameState) (p : Nat) (l : List Card) :
    (setHand s p l).briscola = s.briscola := by unfold setHand; split <;> rfl

@[simp] theorem setHand_deck (s : GameState) (p : Nat) (l : List Card) :
    (setHand s p l).deck = s.deck := by unfold setHand; split <;> rfl

@[simp] theorem setHand_points0 (s : GameState) (p : Nat) (l : List Card) :
    (setHand s p l).points0 = s.points0 := by unfold setHand; split <;> rfl

@[simp] theorem setHand_points1 (s : GameState) (p : Nat) (l : List Card) :
    (setHand s p l).points1 = s.points1 := by unfold setHand; split <;> rfl

@[simp] theorem setHand_leader (s : GameState) (p : Nat) (l : List Card) :
    (setHand s p l).leader = s.leader := by unfold setHand; split <;> rfl

@[simp] theorem setHand_turn (s : GameState) (p : Nat) (l : List Card) :
    (setHand s p l).turn_player = s.turn_player := by unfold setHand; split <;> rfl

@[simp] theorem setHand_lead (s : GameState) (p : Nat) (l : List Card) :
    (setHand s p l).lead_card = s.lead_card := by unfold setHand; split <;> rfl

@[simp] theorem setHand_follow (s : GameState) (p : Nat) (l : List Card) :
    (setHand s p l).follow_card = s.follow_card := by unfold setHand; split <;> rfl

@[simp] theorem setHand_played (s : GameState) (p : Nat) (l : List Card) :
    (setHand s p l).played = s.played := by unfold setHand; split <;> rfl

@[simp] theorem setHand_done (s : GameState) (p : Nat) (l : List Card) :
    (setHand s p l).done = s.done := by unfold setHand; split <;> rfl

@[simp] theorem hand_setHand (s : GameState) (p : Nat) (l : List Card) :
    hand (setHand s p l) p = l := by
  unfold setHand hand; split <;> simp_all

theorem cardsM_setHand_erase (s : GameState) (p a : Nat) (card : Card)
    (h : (hand s p).get? a = some card) :
    cardsM s = card ::ₘ cardsM (setHand s p ((hand s p).eraseIdx a)) := by
  have he := coe_eraseIdx_get (hand s p) a card h
  by_cases hp : p = 0
  · simp only [hand, hp, reduceIte] at he
    unfold cardsM setHand hand
    simp only [hp, reduceIte]
    rw [he]
    simp [Multiset.cons_add]
  · simp only [hand, hp, reduceIte] at he
    unfold cardsM setHand hand
    simp only [hp, reduceIte]
    rw [he]
    simp only [Multiset.cons_swap, ← Multiset.singleton_add]
    abel

@[simp] theorem addPoints_trump (s : GameState) (w g : Nat) :
    (addPoints s w g).trump_card = s.trump_card := by unfold addPoints; split <;> rfl

@[simp] theorem addPoints_briscola (s : GameState) (w g : Nat) :
    (addPoints s w g).briscola = s.briscola := by unfold addPoints; split <;> rfl

@[simp] theorem addPoints_deck (s : GameState) (w g : Nat) :
    (addPoints s w g).deck = s.deck := by unfold addPoints; split <;> rfl

@[simp] theorem addPoints_hand0 (s : GameState) (w g : Nat) :
    (addPoints s w g).hand0 = s.hand0 := by unfold addPoints; split <;> rfl

@[simp] theorem addPoints_hand1 (s : GameState) (w g : Nat) :
    (addPoints s w g).hand1 = s.hand1 := by unfold addPoints; split <;> rfl

@[simp] theorem addPoints_leader (s : GameState) (w g : Nat) :
    (addPoints s w g).leader = s.leader := by unfold addPoints; split <;> rfl

@[simp] theorem addPoints_turn (s : GameState) (w g : Nat) :
    (addPoints s w g).turn_player = s.turn_player := by unfold addPoints; split <;> rfl

@[simp] theorem addPoints_lead (s : GameState) (w g : Nat) :
    (addPoints s w g).lead_card = s.lead_card := by unfold addPoints; split <;> rfl

@[simp] theorem addPoints_follow (s : GameState) (w g : Nat) :
    (addPoints s w g).follow_card = s.follow_card := by unfold addPoints; split <;> rfl

@[simp] theorem addPoints_played (s : GameState) (w g : Nat) :
    (addPoints s w g).played = s.played := by unfold addPoints; split <;> rfl

@[simp] theorem addPoints_done (s : GameState) (w g : Nat) :
    (addPoints s w g).done = s.done := by unfold addPoints; split <;> rfl

theorem addPoints_sum (s : GameState) (w g : Nat) :
    (addPoints s w g).points0 + (addPoints s w g).points1 =
      s.points0 + s.points1 + g := by
  unfold addPoints; split <;> simp <;> omega

theorem cardsM_addPoints (s : GameState) (w g : Nat) :
    cardsM (addPoints s w g) = cardsM s := by
  unfold addPoints; split <;> rfl

@[simp] theorem draw_one_points0 (s : GameState) (w : Nat) :
    (draw_one s w).points0 = s.points0 := by
  unfold draw_one
  cases s.deck
  case cons => simp
  case nil => cases s.trump_card <;> simp

@[simp] theorem draw_one_points1 (s : GameState) (w : Nat) :
    (draw_one s w).points1 = s.points1 := by
  unfold draw_one
  cases s.deck
  case cons => simp
  case nil => cases s.trump_card <;> simp

@[simp] theorem draw_one_played (s : GameState) (w : Nat) :
    (draw_one s w).played = s.played := by
  unfold draw_one
  cases s.deck
  case cons => simp
  case nil => cases s.trump_card <;> simp

@[simp] theorem draw_one_lead (s : GameState) (w : Nat) :
    (draw_one s w).lead_card = s.lead_card := by
  unfold draw_one
  cases s.deck
  case cons => simp
  case nil => cases s.trump_card <;> simp

@[simp] theorem draw_one_follow (s : GameState) (w : Nat) :
    (draw_one s w).follow_card = s.follow_card := by
  unfold draw_one
  cases s.deck
  case cons => simp
  case nil => cases s.trump_card <;> simp

@[simp] theorem draw_one_done (s : GameState) (w : Nat) :
    (draw_one s w).done = s.done := by
  unfold draw_one
  cases s.deck
  case cons => simp
  case nil => cases s.trump_card <;> simp

@[simp] theorem draw_one_leader (s : GameState) (w : Nat) :
    (draw_one s w).leader = s.leader := by
  unfold draw_one
  cases s.deck
  case cons => simp
  case nil => cases s.trump_card <;> simp

@[simp] theorem draw_one_turn (s : GameState) (w : Nat) :
    (draw_one s w).turn_player = s.turn_player := by
  unfold draw_one
  cases s.deck
  case cons => simp
  case nil => cases s.trump_card <;> simp

@[simp] theorem draw_one_briscola (s : GameState) (w : Nat) :
    (draw_one s w).briscola = s.briscola := by
  unfold draw_one
  cases s.deck
  case cons => simp
  case nil => cases s.trump_card <;> simp

theorem cardsM_draw_one (s : GameState) (w : Nat) :
    cardsM (draw_one s w) = cardsM s := by
  unfold draw_one
  cases hd : s.deck with
  | cons c rest =>
    by_cases hw : w = 0 <;>
      simp [cardsM, setHand, hand, hw, hd, ← Multiset.coe_add, ← Multiset.cons_coe,
        ← Multiset.singleton_add] <;> abel
  | nil =>
    cases ht : s.trump_card with
    | some t =>
      by_cases hw : w = 0 <;>
        simp [cardsM, setHand, hand, hw, hd, ht, optList, ← Multiset.coe_add,
          ← Multiset.cons_coe, ← Multiset.singleton_add] <;> abel
    | none => rfl

@[simp] theorem set_follow_fields (s : GameState) (c : Card) :
    (set_follow s c).hand0 = s.hand0 ∧ (set_follow s c).hand1 = s.hand1 ∧
    (set_follow s c).deck = s.deck ∧ (set_follow s c).trump_card = s.trump_card ∧
    (set_follow s c).lead_card = s.lead_card ∧ (set_follow s c).played = s.played ∧
    (set_follow s c).points0 = s.points0 ∧ (set_follow s c).points1 = s.points1 ∧
    (set_follow s c).done = s.done ∧ (set_follow s c).follow_card = some c :=
  ⟨rfl, rfl, rfl, rfl, rfl, rfl, rfl, rfl, rfl, rfl⟩

theorem cardsM_set_follow (s : GameState) (c : Card) (hf : s.follow_card = none) :
    cardsM (set_follow s c) = c ::ₘ cardsM s := by
  unfold cardsM set_follow
  simp only [hf, optList, Multiset.coe_singleton, Multiset.coe_nil,
    ← Multiset.singleton_add, add_zero]
  abel

theorem cardsM_push_played (s : GameState) (L c : Card) :
    cardsM (push_played s L c) = L ::ₘ c ::ₘ cardsM s := by
  unfold cardsM push_played
  simp only [← Multiset.coe_add, ← Multiset.cons_coe, ← Multiset.singleton_add,
    Multiset.coe_nil, add_zero]
  abel

theorem cardsM_clear_table (s : GameState) (w : Nat) (L c : Card)
    (hl : s.lead_card = some L) (hf : s.follow_card = some c) :
    L ::ₘ c ::ₘ cardsM (clear_table s w) = cardsM s := by
  unfold cardsM clear_table
  simp only [hl, hf, optList, Multiset.coe_singleton, Multiset.coe_nil,
    ← Multiset.singleton_add, add_zero]
  abel

theorem cardsM_set_done (s : GameState) : cardsM (set_done s) = cardsM s := rfl

theorem resolve_trick_leader (s0 : GameState) (L card : Card) (w : Nat) :
    (resolve_trick s0 L card w).leader = w := rfl

theorem resolve_trick_turn (s0 : GameState) (L card : Card) (w : Nat) :
    (resolve_trick s0 L card w).turn_player = w := rfl

theorem resolve_trick_lead (s0 : GameState) (L card : Card) (w : Nat) :
    (resolve_trick s0 L card w).lead_card = none := rfl

theorem resolve_trick_follow (s0 : GameState) (L card : Card) (w : Nat) :
    (resolve_trick s0 L card w).follow_card = none := rfl

theorem resolve_trick_briscola (s0 : GameState) (L card : Card) (w : Nat) :
    (resolve_trick s0 L card w).briscola = s0.briscola := by
  unfold resolve_trick set_done clear_table push_played set_follow
  simp

theorem resolve_trick_played (s0 : GameState) (L card : Card) (w : Nat) :
    (resolve_trick s0 L card w).played = s0.played ++ [L, card] := by
  unfold resolve_trick set_done clear_table push_played set_follow
  simp

theorem resolve_trick_sum (s0 : GameState) (L card : Card) (w : Nat) :
    (resolve_trick s0 L card w).points0 + (resolve_trick s0 L card w).points1 =
      s0.points0 + s0.points1 + trick_points L card := by
  unfold resolve_trick set_done clear_table push_played set_follow
  simp only [draw_one_points0, draw_one_points1]
  have := addPoints_sum { s0 with follow_card := some card } w (trick_points L card)
  simpa using this

theorem resolve_trick_done (s0 : GameState) (L card : Card) (w : Nat)
    (hd : s0.done = false) :
    (resolve_trick s0 L card w).done = true ↔
      (resolve_trick s0 L card w).hand0 = [] ∧ (resolve_trick s0 L card w).hand1 = [] ∧
      (resolve_trick s0 L card w).trump_card = none ∧
      (resolve_trick s0 L card w).deck = [] := by
  show (set_done _).done = true ↔ _
  unfold set_done
  have hdone : (clear_table (draw_one (draw_one
      (push_played (addPoints (set_follow s0 card) w (trick_points L card)) L card)
      w) (1 - w)) w).done = false := by
    unfold clear_table
    simp [push_played, set_follow, hd]
  rw [hdone]
  simp only [Bool.false_or, decide_eq_true_eq]
  exact Iff.rfl

theorem cardsM_resolve (s0 : GameState) (L card : Card) (w : Nat)
    (hf : s0.follow_card = none) (hl : s0.lead_card = some L) :
    cardsM (resolve_trick s0 L card w) = card ::ₘ cardsM s0 := by
  unfold resolve_trick
  rw [cardsM_set_done]
  have h5lead : (draw_one (draw_one
      (push_played (addPoints (set_follow s0 card) w (trick_points L card)) L card)
      w) (1 - w)).lead_card = some L := by
    simp [push_played, set_follow, hl]
  have h5follow : (draw_one (draw_one
      (push_played (addPoints (set_follow s0 card) w (trick_points L card)) L card)
      w) (1 - w)).follow_card = some card := by
    simp [push_played, set_follow]
  have hclear := cardsM_clear_table _ w L card h5lead h5follow
  have h5 : cardsM (draw_one (draw_one
      (push_played (addPoints (set_follow s0 card) w (trick_points L card)) L card)
      w) (1 - w)) = L ::ₘ card ::ₘ (card ::ₘ cardsM s0) := by
    rw [cardsM_draw_one, cardsM_draw_one, cardsM_push_played, cardsM_addPoints,
      cardsM_set_follow s0 card hf]
  rw [h5] at hclear
  exact (Multiset.cons_inj_right _).mp ((Multiset.cons_inj_right _).mp hclear)

theorem cardsM_set_lead (s : GameState) (c : Card) (t : Nat)
    (hl : s.lead_card = none) :
    cardsM { s with lead_card := some c, turn_player := t } = c ::ₘ cardsM s := by
  unfold cardsM
  simp only [hl, optList, Multiset.coe_singleton, Multiset.coe_nil,
    ← Multiset.singleton_add, add_zero]
  abel

theorem ptsSum_append (l1 l2 : List Card) :
    ptsSum (l1 ++ l2) = ptsSum l1 + ptsSum l2 := by
  unfold ptsSum
  simp

theorem inv_step {s s' : GameState} {p a : Nat} (hs : Inv s)
    (h : step s p a = some s') : Inv s' := by
  unfold step at h
  by_cases hdone : s.done = true
  · rw [if_pos hdone] at h; cases h
  rw [if_neg hdone] at h
  by_cases hp : p ≠ s.turn_player
  · rw [if_pos hp] at h; cases h
  rw [if_neg hp] at h
  push_neg at hp
  cases hget : (hand s p).get? a with
  | none => rw [hget] at h; cases h
  | some card =>
    rw [hget] at h
    simp only [] at h
    have hcards : cardsM s = card ::ₘ cardsM (setHand s p ((hand s p).eraseIdx a)) :=
      cardsM_setHand_erase s p a card hget
    have hsdone : s.done = false := by
      cases hb : s.done
      · rfl
      · exact absurd hb hdone
    by_cases hl : (setHand s p ((hand s p).eraseIdx a)).turn_player =
        (setHand s p ((hand s p).eraseIdx a)).leader
    · rw [if_pos hl] at h
      injection h with h
      subst h
      simp only [setHand_turn, setHand_leader] at hl
      have hleadnone : s.lead_card = none := by
        cases hlc : s.lead_card with
        | none => rfl
        | some c =>
          have ht := hs.leadTurn c hlc
          rw [hl] at ht
          rcases hs.lead01 with h0 | h1
          · rw [h0] at ht; cases ht
          · rw [h1] at ht; cases ht
      refine ⟨?_, ?_, ?_, ?_, ?_, ?_, ?_⟩
      · rw [cardsM_set_lead _ _ _ (by simpa using hleadnone), ← hcards]
        exact hs.perm
      · simpa using hs.score
      · simpa using hs.follow_none
      · show 1 - p = 0 ∨ 1 - p = 1
        rw [hp]
        rcases hs.turn01 with h0 | h1
        · rw [h0]; right; rfl
        · rw [h1]; left; rfl
      · simpa using hs.lead01
      · intro c hc
        show 1 - p = 1 - _
        simp only [setHand_leader]
        rw [hp, hl]
      · intro hd
        simp only [setHand_done] at hd
        rw [hsdone] at hd
        cases hd
    · rw [if_neg hl] at h
      have hl0 : (setHand s p ((hand s p).eraseIdx a)).lead_card = s.lead_card :=
        setHand_lead _ _ _
      cases hlc : s.lead_card with
      | none => rw [hl0, hlc] at h; cases h
      | some L =>
        rw [hl0, hlc] at h
        simp only [] at h
        cases hw : trick_winner L card (setHand s p ((hand s p).eraseIdx a)).briscola with
        | none => rw [hw] at h; cases h
        | some wrel =>
          rw [hw] at h
          simp only [] at h
          injection h with h
          subst h
          set s0 := setHand s p ((hand s p).eraseIdx a) with hs0
          set w := if wrel = 0 then s0.leader else 1 - s0.leader with hwdef
          have hw01 : w = 0 ∨ w = 1 := by
            rw [hwdef]
            rcases hs.lead01 with h0 | h1
            · by_cases hz : wrel = 0
              · rw [if_pos hz]; left; simpa [hs0] using h0
              · rw [if_neg hz]; right
                have : s0.leader = 0 := by simpa [hs0] using h0
                rw [this]
            · by_cases hz : wrel = 0
              · rw [if_pos hz]; right; simpa [hs0] using h1
              · rw [if_neg hz]; left
                have : s0.leader = 1 := by simpa [hs0] using h1
                rw [this]
          have hf0 : s0.follow_card = none := by
            rw [hs0]; simpa using hs.follow_none
          have hlead0 : s0.lead_card = some L := by rw [hs0, hl0, hlc]
          have hdone0 : s0.done = false := by rw [hs0]; simpa using hsdone
          refine ⟨?_, ?_, ?_, ?_, ?_, ?_, ?_⟩
          · rw [cardsM_resolve s0 L card w hf0 hlead0, ← hcards]
            exact hs.perm
          · rw [resolve_trick_sum, resolve_trick_played]
            have hps : s0.points0 + s0.points1 = s.points0 + s.points1 := by
              rw [hs0]; simp
            have hpl : s0.played = s.played := by rw [hs0]; simp
            rw [hps, hpl, ptsSum_append, hs.score]
            unfold ptsSum trick_points
            simp [Card.points]
          · exact resolve_trick_follow s0 L card w
          · rw [resolve_trick_turn]; exact hw01
          · rw [resolve_trick_leader]; exact hw01
          · intro c hc
            rw [resolve_trick_lead] at hc
            cases hc
          · intro hd
            have hiff := (resolve_trick_done s0 L card w hdone0).mp hd
            exact ⟨hiff.1, hiff.2.1, hiff.2.2.2, hiff.2.2.1, resolve_trick_lead s0 L card w⟩

theorem inv_steps {s s' : GameState} (hs : Inv s) (h : Steps s s') : Inv s' := by
  induction h with
  | refl => exact hs
  | tail hst hstep ih => exact inv_step ih hstep

theorem inv_init {d : List Card} {s0 : GameState} (hperm : d.Perm all_deck)
    (h : initState d = some s0) : Inv s0 := by
  unfold initState at h
  cases hl : d.getLast? with
  | none => rw [hl] at h; cases h
  | some trump =>
    rw [hl] at h
    have hsplit : d.dropLast ++ [trump] = d :=
      List.dropLast_append_getLast? trump (Option.mem_def.mpr hl)
    cases h1 : d.dropLast with
    | nil => rw [h1] at h; cases h
    | cons c0 r1 =>
      cases r2 : r1 with
      | nil => rw [h1, r2] at h; cases h
      | cons c1 t2 =>
        cases r3 : t2 with
        | nil => rw [h1, r2, r3] at h; cases h
        | cons c2 t3 =>
          cases r4 : t3 with
          | nil => rw [h1, r2, r3, r4] at h; cases h
          | cons c3 t4 =>
            cases r5 : t4 with
            | nil => rw [h1, r2, r3, r4, r5] at h; cases h
            | cons c4 t5 =>
              cases r6 : t5 with
              | nil => rw [h1, r2, r3, r4, r5, r6] at h; cases h
              | cons c5 rest =>
                rw [h1, r2, r3, r4, r5, r6] at h
                injection h with h
                subst h
                rw [h1, r2, r3, r4, r5, r6] at hsplit
                have hmul : ((d : Multiset Card)) = (all_deck : Multiset Card) :=
                  Multiset.coe_eq_coe.mpr hperm
                rw [← hsplit] at hmul
                refine ⟨?_, by simp [ptsSum], rfl, Or.inl rfl, Or.inl rfl,
                  ?_, by intro hd; cases hd⟩
                · rw [← hmul]
                  unfold cardsM
                  simp only [optList, Multiset.coe_singleton, Multiset.coe_nil,
                    ← Multiset.cons_coe, ← Multiset.singleton_add, add_zero,
                    List.cons_append, List.nil_append, ← Multiset.coe_add]
                  abel
                · intro c hc
                  cases hc

@[simp] theorem push_played_fields (s : GameState) (L c : Card) :
    (push_played s L c).hand0 = s.hand0 ∧ (push_played s L c).hand1 = s.hand1 ∧
    (push_played s L c).deck = s.deck ∧ (push_played s L c).trump_card = s.trump_card ∧
    (push_played s L c).lead_card = s.lead_card ∧
    (push_played s L c).follow_card = s.follow_card ∧
    (push_played s L c).points0 = s.points0 ∧ (push_played s L c).points1 = s.points1 ∧
    (push_played s L c).done = s.done ∧ (push_played s L c).briscola = s.briscola ∧
    (push_played s L c).played = s.played ++ [L, c] :=
  ⟨rfl, rfl, rfl, rfl, rfl, rfl, rfl, rfl, rfl, rfl, rfl⟩

@[simp] theorem clear_table_fields (s : GameState) (w : Nat) :
    (clear_table s w).hand0 = s.hand0 ∧ (clear_table s w).hand1 = s.hand1 ∧
    (clear_table s w).deck = s.deck ∧ (clear_table s w).trump_card = s.trump_card ∧
    (clear_table s w).played = s.played ∧
    (clear_table s w).points0 = s.points0 ∧ (clear_table s w).points1 = s.points1 ∧
    (clear_table s w).done = s.done ∧ (clear_table s w).briscola = s.briscola ∧
    (clear_table s w).leader = w ∧ (clear_table s w).turn_player = w ∧
    (clear_table s w).lead_card = none ∧ (clear_table s w).follow_card = none :=
  ⟨rfl, rfl, rfl, rfl, rfl, rfl, rfl, rfl, rfl, rfl, rfl, rfl, rfl⟩

@[simp] theorem set_done_fields (s : GameState) :
    (set_done s).hand0 = s.hand0 ∧ (set_done s).hand1 = s.hand1 ∧
    (set_done s).deck = s.deck ∧ (set_done s).trump_card = s.trump_card ∧
    (set_done s).played = s.played ∧
    (set_done s).points0 = s.points0 ∧ (set_done s).points1 = s.points1 ∧
    (set_done s).briscola = s.briscola ∧
    (set_done s).leader = s.leader ∧ (set_done s).turn_player = s.turn_player ∧
    (set_done s).lead_card = s.lead_card ∧ (set_done s).follow_card = s.follow_card :=
  ⟨rfl, rfl, rfl, rfl, rfl, rfl, rfl, rfl, rfl, rfl, rfl, rfl⟩

theorem hand_setHand_other (s : GameState) (p q : Nat) (l : List Card)
    (hpq : p ≠ q) (hp : p = 0 ∨ p = 1) (hq : q = 0 ∨ q = 1) :
    hand (setHand s p l) q = hand s q := by
  rcases hp with rfl | rfl <;> rcases hq with rfl | rfl <;>
    first
      | exact absurd rfl hpq
      | simp [setHand, hand]

/-- Both post-trick draws at once: the winner `w` takes the head of the draw
pool (deck first, then the face-up trump card), the loser takes the next
card, the deck loses its first two cards, and the rest of the pool is what
remains as deck plus trump card. -/
theorem draws_two (t : GameState) (w : Nat) (hw : w = 0 ∨ w = 1) :
    hand (draw_one (draw_one t w) (1 - w)) w =
      hand t w ++ (t.deck ++ optList t.trump_card).take 1 ∧
    hand (draw_one (draw_one t w) (1 - w)) (1 - w) =
      hand t (1 - w) ++ ((t.deck ++ optList t.trump_card).drop 1).take 1 ∧
    (draw_one (draw_one t w) (1 - w)).deck = t.deck.drop 2 ∧
    (draw_one (draw_one t w) (1 - w)).deck ++
        optList (draw_one (draw_one t w) (1 - w)).trump_card =
      (t.deck ++ optList t.trump_card).drop 2 := by
  rcases hw with rfl | rfl <;>
    rcases hdk : t.deck with _ | ⟨d1, _ | ⟨d2, rest⟩⟩ <;>
    rcases htr : t.trump_card with _ | ⟨tc⟩ <;>
    simp [draw_one, setHand, hand, optList, hdk, htr]

/-- When the acting player is the follower, `step` resolves the trick to
`resolve_trick` on the hand-erased state, with the winner decoded from
`trick_winner`. -/
theorem step_follow_eq {s : GameState} {p a wrel : Nat} {L card : Card}
    (hdone : s.done = false) (hp : p = s.turn_player)
    (hnl : s.turn_player ≠ s.leader) (hlc : s.lead_card = some L)
    (hget : (hand s p).get? a = some card)
    (hw : trick_winner L card s.briscola = some wrel) :
    step s p a = some (resolve_trick (setHand s p ((hand s p).eraseIdx a)) L card
      (if wrel = 0 then s.leader else 1 - s.leader)) := by
  unfold step
  rw [if_neg (by rw [hdone]; exact Bool.false_ne_true), if_neg (by omega), hget]
  simp only []
  rw [if_neg (by simpa using hnl)]
  have h1 : (setHand s p ((hand s p).eraseIdx a)).lead_card = some L := by
    rw [setHand_lead, hlc]
  rw [h1]
  simp only []
  have h2 : (setHand s p ((hand s p).eraseIdx a)).briscola = s.briscola :=
    setHand_briscola _ _ _
  rw [h2, hw]
  simp only [setHand_leader]

theorem hand_eq_of_fields {x y : GameState} (h0 : x.hand0 = y.hand0)
    (h1 : x.hand1 = y.hand1) (q : Nat) : hand x q = hand y q := by
  unfold hand
  rw [h0, h1]

/-- C3 -- for every non-terminal state in which the acting player plays the
second card of a trick, `step` resolves the trick: the winner given by
`trick_winner` gains both cards' points, the two cards are appended to the
played record, winner then loser each draw one card from the pool made of
the stock followed by the single face-up trump card (so the trump card goes
to at most one player and nothing is drawn once both are exhausted), the new
leader and turn player are the winner, the table slots are reset, and the
terminal flag becomes true iff both hands, the stock and the trump card are
exhausted. -/
theorem step_second_card (s : GameState) (p a wrel winner : Nat) (L card : Card)
    (hdone : s.done = false) (hp : p = s.turn_player)
    (hnl : s.turn_player ≠ s.leader)
    (hld : s.leader = 0 ∨ s.leader = 1) (htp : s.turn_player = 0 ∨ s.turn_player = 1)
    (hlc : s.lead_card = some L) (hget : (hand s p).get? a = some card)
    (hw : trick_winner L card s.briscola = some wrel)
    (hwin : winner = if wrel = 0 then s.leader else 1 - s.leader) :
    ∃ s', step s p a = some s' ∧
      (if winner = 0
        then s'.points0 = s.points0 + trick_points L card ∧ s'.points1 = s.points1
        else s'.points1 = s.points1 + trick_points L card ∧ s'.points0 = s.points0) ∧
      s'.played = s.played ++ [L, card] ∧
      hand s' winner =
        (if winner = p then (hand s p).eraseIdx a else hand s winner) ++
          (s.deck ++ optList s.trump_card).take 1 ∧
      hand s' (1 - winner) =
        (if 1 - winner = p then (hand s p).eraseIdx a else hand s (1 - winner)) ++
          ((s.deck ++ optList s.trump_card).drop 1).take 1 ∧
      s'.deck = s.deck.drop 2 ∧
      s'.deck ++ optList s'.trump_card = (s.deck ++ optList s.trump_card).drop 2 ∧
      s'.leader = winner ∧ s'.turn_player = winner ∧
      s'.lead_card = none ∧ s'.follow_card = none ∧
      (s'.done = true ↔
        s'.hand0 = [] ∧ s'.hand1 = [] ∧ s'.deck = [] ∧ s'.trump_card = none) := by
  subst hwin
  set w := if wrel = 0 then s.leader else 1 - s.leader with hwdef
  have hw01 : w = 0 ∨ w = 1 := by
    rw [hwdef]
    rcases hld with h0 | h1
    · by_cases hz : wrel = 0
      · rw [if_pos hz, h0]; left; rfl
      · rw [if_neg hz, h0]; right; rfl
    · by_cases hz : wrel = 0
      · rw [if_pos hz, h1]; right; rfl
      · rw [if_neg hz, h1]; left; rfl
  have hp01 : p = 0 ∨ p = 1 := hp ▸ htp
  refine ⟨resolve_trick (setHand s p ((hand s p).eraseIdx a)) L card w,
    step_follow_eq hdone hp hnl hlc hget hw, ?_⟩
  set s0 := setHand s p ((hand s p).eraseIdx a) with hs0
  set t := push_played (addPoints (set_follow s0 card) w (trick_points L card)) L card
    with ht
  have hres : resolve_trick s0 L card w =
      set_done (clear_table (draw_one (draw_one t w) (1 - w)) w) := rfl
  have hth0 : t.hand0 = s0.hand0 := by rw [ht]; simp
  have hth1 : t.hand1 = s0.hand1 := by rw [ht]; simp
  have htdeck : t.deck = s.deck := by rw [ht, hs0]; simp
  have httrump : t.trump_card = s.trump_card := by rw [ht, hs0]; simp
  obtain ⟨hA, hB, hC, hD⟩ := draws_two t w hw01
  have hhand_t : ∀ q, hand t q = hand s0 q := fun q => hand_eq_of_fields hth0 hth1 q
  have hhand_s0 : ∀ q, q = 0 ∨ q = 1 →
      hand s0 q = if q = p then (hand s p).eraseIdx a else hand s q := by
    intro q hq
    by_cases hqp : q = p
    · rw [if_pos hqp, hqp, hs0, hand_setHand]
    · rw [if_neg hqp, hs0, hand_setHand_other s p q _ (fun he => hqp he.symm) hp01 hq]
  have hXhand : ∀ q, hand (resolve_trick s0 L card w) q =
      hand (draw_one (draw_one t w) (1 - w)) q := by
    intro q
    rw [hres]
    exact hand_eq_of_fields (by simp) (by simp) q
  have h1w : 1 - w = 0 ∨ 1 - w = 1 := by
    rcases hw01 with h | h <;> rw [h] <;> [right; left] <;> rfl
  refine ⟨?_, ?_, ?_, ?_, ?_, ?_, ?_, ?_, ?_, ?_, ?_⟩
  · by_cases hw0 : w = 0
    · rw [if_pos hw0]
      constructor <;>
        · rw [hres]
          simp [ht, addPoints, set_follow, hw0, hs0]
    · rw [if_neg hw0]
      constructor <;>
        · rw [hres]
          simp [ht, addPoints, set_follow, hw0, hs0]
  · rw [resolve_trick_played, hs0]
    simp
  · rw [hXhand w, hA, hhand_t w, hhand_s0 w hw01, htdeck, httrump]
  · rw [hXhand (1 - w), hB, hhand_t (1 - w), hhand_s0 (1 - w) h1w, htdeck, httrump]
  · rw [hres]
    have : (set_done (clear_table (draw_one (draw_one t w) (1 - w)) w)).deck =
        (draw_one (draw_one t w) (1 - w)).deck := by simp
    rw [this, hC, htdeck]
  · rw [hres]
    have hde : (set_done (clear_table (draw_one (draw_one t w) (1 - w)) w)).deck =
        (draw_one (draw_one t w) (1 - w)).deck := by simp
    have htr : (set_done (clear_table (draw_one (draw_one t w) (1 - w)) w)).trump_card =
        (draw_one (draw_one t w) (1 - w)).trump_card := by simp
    rw [hde, htr, hD, htdeck, httrump]
  · exact resolve_trick_leader s0 L card w
  · exact resolve_trick_turn s0 L card w
  · exact resolve_trick_lead s0 L card w
  · exact resolve_trick_follow s0 L card w
  · have hd0 : s0.done = false := by rw [hs0]; simpa using hdone
    exact (resolve_trick_done s0 L card w hd0).trans (by tauto)

/-- Lead card of the concrete follow-step scenario. -/
def c3L : Card := Card.mk Suit.coppe Rank.N4

/-- Follow card of the concrete follow-step scenario. -/
def c3F : Card := Card.mk Suit.coppe Rank.N7

/-- A concrete mid-trick state: player 0 led the 4 of coppe, player 1 is to
answer, two cards remain in the stock and the trump card is still face up. -/
def c3State : GameState :=
  { trump_card := some (Card.mk Suit.denari Rank.A)
    briscola := Suit.denari
    deck := [Card.mk Suit.spade Rank.K, Card.mk Suit.spade Rank.C]
    hand0 := [Card.mk Suit.bastoni Rank.N5]
    hand1 := [c3F, Card.mk Suit.bastoni Rank.N6]
    points0 := 0
    points1 := 0
    leader := 0
    turn_player := 1
    lead_card := some c3L
    follow_card := none
    played := []
    done := false }

/-- Witness for C3: in the concrete scenario the 7 of coppe beats the led 4
of coppe, so the follower wins the trick and the resolution equations hold. -/
theorem step_second_card_witness :
    ∃ s', step c3State 1 0 = some s' ∧
      (if 1 = 0
        then s'.points0 = c3State.points0 + trick_points c3L c3F ∧
          s'.points1 = c3State.points1
        else s'.points1 = c3State.points1 + trick_points c3L c3F ∧
          s'.points0 = c3State.points0) ∧
      s'.played = c3State.played ++ [c3L, c3F] ∧
      hand s' 1 =
        (if 1 = 1 then (hand c3State 1).eraseIdx 0 else hand c3State 1) ++
          (c3State.deck ++ optList c3State.trump_card).take 1 ∧
      hand s' (1 - 1) =
        (if 1 - 1 = 1 then (hand c3State 1).eraseIdx 0 else hand c3State (1 - 1)) ++
          ((c3State.deck ++ optList c3State.trump_card).drop 1).take 1 ∧
      s'.deck = c3State.deck.drop 2 ∧
      s'.deck ++ optList s'.trump_card =
        (c3State.deck ++ optList c3State.trump_card).drop 2 ∧
      s'.leader = 1 ∧ s'.turn_player = 1 ∧
      s'.lead_card = none ∧ s'.follow_card = none ∧
      (s'.done = true ↔
        s'.hand0 = [] ∧ s'.hand1 = [] ∧ s'.deck = [] ∧ s'.trump_card = none) :=
  step_second_card c3State 1 0 1 1 c3L c3F rfl rfl (by decide) (Or.inl rfl)
    (Or.inr rfl) rfl rfl (by decide) (by decide)

theorem ptsSum_perm {l1 l2 : List Card} (h : l1.Perm l2) : ptsSum l1 = ptsSum l2 :=
  (h.map Card.points).sum_eq

/-- C2 -- the point table assigns Ace=11, 3=10, King=4, Knight=3, Jack=2 and
0 to every other rank, the 40 distinct cards carry 120 points in total, and
after any sequence of legal `step` calls from the initial deal of a shuffled
deck, once the terminal flag is true the two scores sum to exactly 120
(total points in play are conserved by every step). -/
theorem points_total_120 :
    (POINTS Rank.A = 11 ∧ POINTS Rank.N3 = 10 ∧ POINTS Rank.K = 4 ∧
      POINTS Rank.C = 3 ∧ POINTS Rank.F = 2 ∧
      ∀ r : Rank, r ∉ [Rank.A, Rank.N3, Rank.K, Rank.C, Rank.F] → POINTS r = 0) ∧
    ptsSum all_deck = 120 ∧
    ∀ (d : List Card) (s0 s : GameState), d.Perm all_deck → initState d = some s0 →
      Steps s0 s → s.done = true → s.points0 + s.points1 = 120 := by
  refine ⟨by decide, by decide, ?_⟩
  intro d s0 s hperm hinit hsteps hdone
  have hinv : Inv s := inv_steps (inv_init hperm hinit) hsteps
  obtain ⟨h0, h1, hdeck, htrump, hlead⟩ := hinv.doneE hdone
  have hplayed : (s.played : Multiset Card) = (all_deck : Multiset Card) := by
    have := hinv.perm
    unfold cardsM at this
    rw [h0, h1, hdeck, htrump, hlead, hinv.follow_none] at this
    simpa [optList] using this
  have hpp : s.played.Perm all_deck := Multiset.coe_eq_coe.mp hplayed
  rw [hinv.score, ptsSum_perm hpp]
  decide

/-- The deal of the identity-ordered deck, used as a concrete game. -/
def initialWitness : GameState := (initState all_deck).getD default

/-- The terminal state of the concrete game in which each player always
plays the first card of the hand. -/
def finalWitness : GameState := (runA initialWitness (List.replicate 40 0)).getD default

/-- Witness for C2: a full concrete game from the identity deal, always
playing index 0, ends terminal with the two scores summing to 120. -/
theorem points_total_120_witness :
    finalWitness.points0 + finalWitness.points1 = 120 :=
  points_total_120.2.2 all_deck initialWitness finalWitness (List.Perm.refl _)
    (by rfl) (runA_steps (List.replicate 40 0) initialWitness finalWitness (by rfl))
    (by rfl)

/-- `determinize_for_player(env, obs, rng)` of determinization.py.
`env.clone()` copies every game field (the clone's fresh `rng` plays no
role in the game fields), so the clone is the state itself here; the
`rng.shuffle` of the unseen cards is modelled by the explicit `shuffle`
argument. -/
def determinize_for_player (env : GameState) (obs : Observation)
    (shuffle : List Card → List Card) : GameState :=
  let sim := env
  let me := obs.player
  let opp := 1 - me
  let known : List Card :=
    obs.hand ++ obs.played ++ optList obs.lead_card ++ optList sim.follow_card ++
      optList sim.trump_card
  let unseen := all_deck.filter (fun c => decide (¬ c ∈ known))
  let opp_needed := obs.opponent_count
  let deck_needed := obs.deck_count
  let shuffled := shuffle unseen
  let opp_hand := shuffled.take opp_needed
  let deck_rest := (shuffled.drop opp_needed).take deck_needed
  let sim1 := setHand sim me obs.hand
  let sim2 := setHand sim1 opp opp_hand
  { sim2 with deck := deck_rest }

/-- In a state satisfying the invariant, the acting player's observation
shows the lead card whenever there is one (the follower is to move then). -/
theorem observe_lead_turn (s : GameState) (hinv : Inv s) :
    (observe s s.turn_player).lead_card = s.lead_card := by
  unfold observe
  simp only []
  cases hlc : s.lead_card with
  | none => split <;> rfl
  | some L => rw [if_pos (hinv.leadTurn L hlc)]

theorem all_deck_nodup : all_deck.Nodup := by decide

/-- The hidden cards (opponent hand and stock) are exactly the full deck
minus the known cards. -/
theorem unseen_perm (s : GameState) (hinv : Inv s) (known : List Card)
    (hknown : ∀ c, c ∈ known ↔ c ∈ hand s s.turn_player ++ s.played ++
        optList s.lead_card ++ optList s.trump_card) :
    (all_deck.filter (fun c => decide (¬ c ∈ known))).Perm
      (hand s (1 - s.turn_player) ++ s.deck) := by
  set K := hand s s.turn_player ++ s.played ++ optList s.lead_card ++
    optList s.trump_card with hK
  set H := hand s (1 - s.turn_player) ++ s.deck with hH
  have hKH : (K ++ H).Perm all_deck := by
    rw [← Multiset.coe_eq_coe]
    have hperm := hinv.perm
    unfold cardsM at hperm
    rw [hinv.follow_none] at hperm
    simp only [optList_none, Multiset.coe_nil, add_zero] at hperm
    rw [← hperm, hK, hH]
    rcases hinv.turn01 with h0 | h1
    · rw [h0]
      simp only [Nat.sub_zero, hand_zero, hand_one, ← Multiset.coe_add]
      abel
    · rw [h1]
      simp only [Nat.sub_self, hand_zero, hand_one, ← Multiset.coe_add]
      abel
  have nKH : (K ++ H).Nodup := hKH.nodup_iff.mpr all_deck_nodup
  have nH : H.Nodup := (List.nodup_append.mp nKH).2.1
  have hdisj : ∀ c, c ∈ H → ¬ c ∈ K := by
    intro c hc hck
    exact (List.nodup_append.mp nKH).2.2 hck hc
  refine (List.perm_ext_iff_of_nodup (all_deck_nodup.filter _) nH).mpr ?_
  intro c
  simp only [List.mem_filter, decide_eq_true_eq]
  constructor
  · rintro ⟨hcd, hcn⟩
    rw [hknown] at hcn
    rcases List.mem_append.mp (hKH.mem_iff.mpr hcd) with h | h
    · exact absurd h hcn
    · exact h
  · intro hc
    refine ⟨hKH.mem_iff.mp (List.mem_append.mpr (Or.inr hc)), ?_⟩
    rw [hknown]
    exact hdisj c hc

@[simp] theorem hand_set_deck (x : GameState) (l : List Card) (q : Nat) :
    hand { x with deck := l } q = hand x q := rfl

@[simp] theorem observe_player (s : GameState) (p : Nat) :
    (observe s p).player = p := rfl

@[simp] theorem observe_hand (s : GameState) (p : Nat) :
    (observe s p).hand = hand s p := rfl

@[simp] theorem observe_played (s : GameState) (p : Nat) :
    (observe s p).played = s.played := rfl

@[simp] theorem observe_deck_count (s : GameState) (p : Nat) :
    (observe s p).deck_count = s.deck.length := rfl

@[simp] theorem observe_opponent_count (s : GameState) (p : Nat) :
    (observe s p).opponent_count = (hand s (1 - p)).length := rfl

@[simp] theorem observe_briscola (s : GameState) (p : Nat) :
    (observe s p).briscola = s.briscola := rfl

/-- C4 -- on every reachable authoritative state, determinizing for the
acting player's observation returns a state that gives the acting player
exactly the observed hand, gives the opponent a hand of the observed public
size, gives the stock the observed public length, samples both only from
the 40-card deck minus the acting hand, the played cards, the visible lead
card and the face-up trump card, contains no duplicate card across hands,
stock, trump card and played record, and leaves every other field equal to
the input state's. -/
theorem determinize_consistent (d : List Card) (s0 s sim : GameState)
    (obs : Observation) (shuffle : List Card → List Card)
    (hd : d.Perm all_deck) (hinit : initState d = some s0) (hsteps : Steps s0 s)
    (hshuffle : ∀ l, (shuffle l).Perm l)
    (hobs : obs = observe s s.turn_player)
    (hsim : sim = determinize_for_player s obs shuffle) :
    hand sim s.turn_player = obs.hand ∧
    (hand sim (1 - s.turn_player)).length = obs.opponent_count ∧
    sim.deck.length = obs.deck_count ∧
    (∀ c, c ∈ hand sim (1 - s.turn_player) ++ sim.deck →
      c ∈ all_deck ∧ ¬ c ∈ obs.hand ∧ ¬ c ∈ obs.played ∧
      obs.lead_card ≠ some c ∧ sim.trump_card ≠ some c) ∧
    (hand sim s.turn_player ++ hand sim (1 - s.turn_player) ++ sim.deck ++
      optList sim.trump_card ++ sim.played).Nodup ∧
    sim.leader = s.leader ∧ sim.turn_player = s.turn_player ∧
    sim.points0 = s.points0 ∧ sim.points1 = s.points1 ∧
    sim.lead_card = s.lead_card ∧ sim.follow_card = s.follow_card ∧
    sim.briscola = s.briscola ∧ sim.trump_card = s.trump_card ∧
    sim.played = s.played := by
  have hinv : Inv s := inv_steps (inv_init hd hinit) hsteps
  have hme : s.turn_player = 0 ∨ s.turn_player = 1 := hinv.turn01
  have hne : s.turn_player ≠ 1 - s.turn_player := by rcases hme with h | h <;> omega
  have hopp01 : 1 - s.turn_player = 0 ∨ 1 - s.turn_player = 1 := by
    rcases hme with h | h <;> rw [h] <;> [right; left] <;> rfl
  subst hobs
  simp only [determinize_for_player, observe_player, observe_hand, observe_played,
    observe_opponent_count, observe_deck_count] at hsim
  rw [observe_lead_turn s hinv, hinv.follow_none] at hsim
  simp only [optList_none, List.append_nil] at hsim
  set K : List Card := hand s s.turn_player ++ s.played ++ optList s.lead_card ++
    optList s.trump_card with hK
  set SH : List Card := shuffle (all_deck.filter (fun c => decide (¬ c ∈ K)))
    with hSH
  set n : Nat := (hand s (1 - s.turn_player)).length with hn
  set m : Nat := s.deck.length with hm
  have hup : (all_deck.filter (fun c => decide (¬ c ∈ K))).Perm
      (hand s (1 - s.turn_player) ++ s.deck) :=
    unseen_perm s hinv K (fun c => Iff.rfl)
  have hshp : SH.Perm (hand s (1 - s.turn_player) ++ s.deck) :=
    (hshuffle _).trans hup
  have hshlen : SH.length = n + m := by
    rw [hshp.length_eq, List.length_append, hn, hm]
  have hhand_me : hand sim s.turn_player = hand s s.turn_player := by
    rw [hsim, hand_set_deck,
      hand_setHand_other _ _ _ _ (fun he => hne he.symm) hopp01 hme, hand_setHand]
  have hhand_opp : hand sim (1 - s.turn_player) = SH.take n := by
    rw [hsim, hand_set_deck, hand_setHand]
  have hdeck : sim.deck = (SH.drop n).take m := by rw [hsim]
  have htrump : sim.trump_card = s.trump_card := by rw [hsim]; simp
  have hplayed : sim.played = s.played := by rw [hsim]; simp
  have hlen_opp : (hand sim (1 - s.turn_player)).length = n := by
    rw [hhand_opp, List.length_take, hshlen]
    omega
  have hlen_deck : sim.deck.length = m := by
    rw [hdeck, List.length_take, List.length_drop, hshlen]
    omega
  have hdeck_full : sim.deck = SH.drop n := by
    rw [hdeck]
    apply List.take_of_length_le
    rw [List.length_drop, hshlen]
    omega
  have htake_drop : hand sim (1 - s.turn_player) ++ sim.deck = SH := by
    rw [hhand_opp, hdeck_full, List.take_append_drop]
  have hsample : ∀ c, c ∈ hand sim (1 - s.turn_player) ++ sim.deck →
      c ∈ all_deck ∧ ¬ c ∈ K := by
    intro c hc
    rw [htake_drop, hSH] at hc
    have hcu := (hshuffle _).mem_iff.mp hc
    have := List.mem_filter.mp hcu
    exact ⟨this.1, by simpa using this.2⟩
  refine ⟨by simpa using hhand_me, by simpa using hlen_opp,
    by simpa using hlen_deck, ?_, ?_, ?_, ?_, ?_, ?_, ?_, ?_, ?_, htrump, hplayed⟩
  · intro c hc
    obtain ⟨hcd, hcn⟩ := hsample c hc
    rw [hK] at hcn
    simp only [List.mem_append, not_or] at hcn
    obtain ⟨⟨⟨h1, h2⟩, h3⟩, h4⟩ := hcn
    refine ⟨hcd, by simpa using h1, by simpa using h2, ?_, ?_⟩
    · rw [observe_lead_turn s hinv]
      intro he
      rw [he] at h3
      simp at h3
    · rw [htrump]
      intro he
      rw [he] at h4
      simp at h4
  · -- no duplicate across the output card groups
    rw [← Multiset.coe_nodup]
    have hperm := hinv.perm
    unfold cardsM at hperm
    rw [hinv.follow_none] at hperm
    simp only [optList_none, Multiset.coe_nil, add_zero] at hperm
    have hallnodup : Multiset.Nodup
        ((s.hand0 : Multiset Card) + (s.hand1 : Multiset Card) +
          (s.deck : Multiset Card) + (optList s.trump_card : Multiset Card) +
          (optList s.lead_card : Multiset Card) + (s.played : Multiset Card)) := by
      rw [hperm]
      simpa using all_deck_nodup
    refine Multiset.nodup_of_le ?_ hallnodup
    refine Multiset.le_iff_exists_add.mpr ⟨(optList s.lead_card : Multiset Card), ?_⟩
    have h1 : ((hand sim (1 - s.turn_player) ++ sim.deck : List Card) :
        Multiset Card) = ((hand s (1 - s.turn_player) ++ s.deck : List Card) :
        Multiset Card) := by
      rw [htake_drop]
      exact Multiset.coe_eq_coe.mpr hshp
    have hsplit : ((hand sim s.turn_player ++ hand sim (1 - s.turn_player) ++
        sim.deck ++ optList sim.trump_card ++ sim.played : List Card) :
          Multiset Card) =
        (hand s s.turn_player : Multiset Card) +
          ((hand s (1 - s.turn_player) : Multiset Card) + (s.deck : Multiset Card)) +
          (optList s.trump_card : Multiset Card) + (s.played : Multiset Card) := by
      simp only [← Multiset.coe_add] at h1 ⊢
      rw [htrump, hplayed, hhand_me]
      have h2 : ((hand s s.turn_player : Multiset Card)) +
          ((hand sim (1 - s.turn_player) : List Card) : Multiset Card) +
          (sim.deck : Multiset Card) + (optList s.trump_card : Multiset Card) +
          (s.played : Multiset Card) =
          ((hand s s.turn_player : Multiset Card)) +
          (((hand sim (1 - s.turn_player) : List Card) : Multiset Card) +
            (sim.deck : Multiset Card)) + (optList s.trump_card : Multiset Card) +
          (s.played : Multiset Card) := by abel
      rw [h2, h1]
    rw [hsplit]
    rcases hme with h | h <;> rw [h] <;>
      simp only [Nat.sub_zero, Nat.sub_self, hand_zero, hand_one] <;>
      abel
  · rw [hsim]; simp
  · rw [hsim]; simp
  · rw [hsim]; simp
  · rw [hsim]; simp
  · rw [hsim]; simp
  · rw [hsim]; simp
  · rw [hsim]; simp

/-- A concrete determinization: the identity-deal state, observed by the
player to move, resampled with the identity shuffle. -/
def detWitness : GameState :=
  determinize_for_player initialWitness
    (observe initialWitness initialWitness.turn_player) (fun l => l)

/-- Witness for C4: the determinization of the concrete initial deal
satisfies every clause of the consistency statement. -/
theorem determinize_consistent_witness :
    hand detWitness initialWitness.turn_player =
      (observe initialWitness initialWitness.turn_player).hand ∧
    (hand detWitness (1 - initialWitness.turn_player)).length =
      (observe initialWitness initialWitness.turn_player).opponent_count ∧
    detWitness.deck.length =
      (observe initialWitness initialWitness.turn_player).deck_count ∧
    (∀ c, c ∈ hand detWitness (1 - initialWitness.turn_player) ++ detWitness.deck →
      c ∈ all_deck ∧
      ¬ c ∈ (observe initialWitness initialWitness.turn_player).hand ∧
      ¬ c ∈ (observe initialWitness initialWitness.turn_player).played ∧
      (observe initialWitness initialWitness.turn_player).lead_card ≠ some c ∧
      detWitness.trump_card ≠ some c) ∧
    (hand detWitness initialWitness.turn_player ++
      hand detWitness (1 - initialWitness.turn_player) ++ detWitness.deck ++
      optList detWitness.trump_card ++ detWitness.played).Nodup ∧
    detWitness.leader = initialWitness.leader ∧
    detWitness.turn_player = initialWitness.turn_player ∧
    detWitness.points0 = initialWitness.points0 ∧
    detWitness.points1 = initialWitness.points1 ∧
    detWitness.lead_card = initialWitness.lead_card ∧
    detWitness.follow_card = initialWitness.follow_card ∧
    detWitness.briscola = initialWitness.briscola ∧
    detWitness.trump_card = initialWitness.trump_card ∧
    detWitness.played = initialWitness.played :=
  determinize_consistent all_deck initialWitness initialWitness detWitness
    (observe initialWitness initialWitness.turn_player) (fun l => l)
    (List.Perm.refl _) (by rfl) (Steps.refl _) (fun l => List.Perm.refl l) rfl rfl

/-- The rank-utility table `{"A":9,"3":8,"K":7,"C":6,"F":5,"7":4,"6":3,
"5":2,"4":1,"2":0}`, shared by `heuristics._rank_value` and the inline
`order` dictionaries of rule_based.py. -/
def _rank_value : Rank → Nat
  | Rank.A => 9
  | Rank.N3 => 8
  | Rank.K => 7
  | Rank.C => 6
  | Rank.F => 5
  | Rank.N7 => 4
  | Rank.N6 => 3
  | Rank.N5 => 2
  | Rank.N4 => 1
  | Rank.N2 => 0

/-- Python tuple comparison `<` on the `(points, order)` keys. -/
def prodLt (a b : Nat × Nat) : Prop := a.1 < b.1 ∨ (a.1 = b.1 ∧ a.2 < b.2)

instance (a b : Nat × Nat) : Decidable (prodLt a b) := by
  unfold prodLt
  infer_instance

theorem prodLt_irrefl (a : Nat × Nat) : ¬ prodLt a a := by
  unfold prodLt
  omega

theorem prodLt_trans {a b c : Nat × Nat} (h1 : prodLt a b) (h2 : prodLt b c) :
    prodLt a c := by
  unfold prodLt at *
  omega

/-- `a < b ≤ c` gives `a < c`, with `b ≤ c` expressed as `¬ c < b`. -/
theorem prodLt_of_lt_of_not_lt {a b c : Nat × Nat} (h1 : prodLt a b)
    (h2 : ¬ prodLt c b) : prodLt a c := by
  unfold prodLt at *
  omega

/-- The `(points, order)` key used by `HighestFirstAgent.act` and
`_lowest_card_idx` of rule_based.py. -/
def cardKey (c : Card) : Nat × Nat := (c.points, _rank_value c.rank)

/-- The `for i, c in enumerate(hand)` loop of `HighestFirstAgent.act`
(Python's `max` with a key returns the first element whose key is maximal:
the running best is replaced only on a strictly greater key). -/
def maxLoop : List (Nat × Card) → Nat × (Nat × Nat) → Nat × (Nat × Nat)
  | [], best => best
  | p :: rest, best =>
    maxLoop rest (if prodLt best.2 (cardKey p.2) then (p.1, cardKey p.2) else best)

/-- `HighestFirstAgent.act`: index of the first card with the lexicographically
greatest `(points, order)` key; `max` on an empty hand raises (`none`). -/
def highest_first_act (hand : List Card) : Option Nat :=
  match hand.enum with
  | [] => none
  | p :: rest => some (maxLoop rest (p.1, cardKey p.2)).1

/-- The loop of `_lowest_card_idx`: the running best is replaced only on a
strictly smaller key, so the first minimal index wins. -/
def minLoop : List (Nat × Card) → Nat × (Nat × Nat) → Nat × (Nat × Nat)
  | [], best => best
  | p :: rest, best =>
    minLoop rest (if prodLt (cardKey p.2) best.2 then (p.1, cardKey p.2) else best)

/-- `_lowest_card_idx(hand)`: index of the first card with the smallest
`(points, order)` key; on an empty hand `best` stays `None` and the final
subscript raises (`none`). -/
def _lowest_card_idx (hand : List Card) : Option Nat :=
  match hand.enum with
  | [] => none
  | p :: rest => some (minLoop rest (p.1, cardKey p.2)).1

/-- `BestChoiceFirstAgent.act` of rule_based.py. -/
def best_choice_first_act (obs : Observation) : Option Nat :=
  match obs.lead_card with
  | none => highest_first_act obs.hand
  | some lead =>
    if lead.points = 0 then _lowest_card_idx obs.hand
    else
      match obs.hand.findIdx? (fun c =>
          decide (c.suit = lead.suit) &&
          decide (trick_winner lead c obs.briscola = some 1)) with
      | some i => some i
      | none =>
        match obs.hand.findIdx? (fun c =>
            decide (c.suit = obs.briscola) &&
            decide (trick_winner lead c obs.briscola = some 1)) with
        | some i => some i
        | none => _lowest_card_idx obs.hand

theorem maxLoop_spec (ps : List (Nat × Card)) :
    ∀ best : Nat × (Nat × Nat),
    (maxLoop ps best = best ∨ ∃ p ∈ ps, maxLoop ps best = (p.1, cardKey p.2)) ∧
    ¬ prodLt (maxLoop ps best).2 best.2 ∧
    ∀ p ∈ ps, ¬ prodLt (maxLoop ps best).2 (cardKey p.2) := by
  induction ps with
  | nil =>
    intro best
    exact ⟨Or.inl rfl, prodLt_irrefl _, by simp⟩
  | cons p rest ih =>
    intro best
    simp only [maxLoop]
    by_cases hlt : prodLt best.2 (cardKey p.2)
    · rw [if_pos hlt]
      obtain ⟨h1, h2, h3⟩ := ih (p.1, cardKey p.2)
      refine ⟨?_, ?_, ?_⟩
      · rcases h1 with h | ⟨q, hq, hres⟩
        · exact Or.inr ⟨p, List.mem_cons_self p rest, h⟩
        · exact Or.inr ⟨q, List.mem_cons_of_mem p hq, hres⟩
      · intro hcon
        exact h2 (prodLt_trans hcon hlt)
      · intro q hq
        rcases List.mem_cons.mp hq with rfl | hq2
        · exact h2
        · exact h3 q hq2
    · rw [if_neg hlt]
      obtain ⟨h1, h2, h3⟩ := ih best
      refine ⟨?_, h2, ?_⟩
      · rcases h1 with h | ⟨q, hq, hres⟩
        · exact Or.inl h
        · exact Or.inr ⟨q, List.mem_cons_of_mem p hq, hres⟩
      · intro q hq
        rcases List.mem_cons.mp hq with rfl | hq2
        · intro hcon
          exact h2 (prodLt_of_lt_of_not_lt hcon hlt)
        · exact h3 q hq2

theorem highest_first_act_spec (hand : List Card) (hne : hand ≠ []) :
    ∃ i ci, highest_first_act hand = some i ∧ hand.get? i = some ci ∧
      ∀ j cj, hand.get? j = some cj → ¬ prodLt (cardKey ci) (cardKey cj) := by
  cases henum : hand.enum with
  | nil =>
    exfalso
    apply hne
    cases hand with
    | nil => rfl
    | cons c cs => simp [List.enum] at henum
  | cons p rest =>
    have hmem_of_get : ∀ j cj, hand.get? j = some cj → (j, cj) = p ∨ (j, cj) ∈ rest := by
      intro j cj hget
      have : (j, cj) ∈ hand.enum := List.mem_enum_iff_get?.mpr hget
      rw [henum] at this
      exact List.mem_cons.mp this
    have hget_of_mem : ∀ q : Nat × Card, q ∈ hand.enum → hand.get? q.1 = some q.2 := by
      intro q hq
      exact List.mem_enum_iff_get?.mp hq
    obtain ⟨h1, h2, h3⟩ := maxLoop_spec rest (p.1, cardKey p.2)
    have hact : highest_first_act hand = some (maxLoop rest (p.1, cardKey p.2)).1 := by
      unfold highest_first_act
      rw [henum]
    rcases h1 with hres | ⟨q, hq, hres⟩
    · refine ⟨p.1, p.2, by rw [hact, hres], hget_of_mem p (henum ▸ List.mem_cons_self p rest), ?_⟩
      intro j cj hget
      have hkey : cardKey p.2 = (maxLoop rest (p.1, cardKey p.2)).2 := by rw [hres]
      rcases hmem_of_get j cj hget with heq | hmem
      · have : cj = p.2 := congrArg Prod.snd heq
        rw [this]
        exact prodLt_irrefl _
      · rw [hkey]
        exact h3 (j, cj) hmem
    · refine ⟨q.1, q.2, by rw [hact, hres],
        hget_of_mem q (henum ▸ List.mem_cons_of_mem p hq), ?_⟩
      intro j cj hget
      have hkey : cardKey q.2 = (maxLoop rest (p.1, cardKey p.2)).2 := by rw [hres]
      rcases hmem_of_get j cj hget with heq | hmem
      · have : cj = p.2 := congrArg Prod.snd heq
        rw [this, hkey]
        exact h2
      · rw [hkey]
        exact h3 (j, cj) hmem

/-- Observation with a two-card hand whose cards tie at zero points, used
to separate the two tie-breaking conventions. -/
def obs6 : Observation :=
  { player := 0
    hand := [Card.mk Suit.denari Rank.N2, Card.mk Suit.denari Rank.N7]
    briscola := Suit.coppe
    lead_card := none
    deck_count := 34
    trick_points_so_far := 0
    played := []
    opponent_count := 3 }

/-- C6 counterexample -- leading with the hand [2 of denari, 7 of denari]
(both worth 0 points), the agent plays index 1, the 7, which is strictly
higher in the strength order than the 2; the claimed lowest-strength
tie-break would have played index 0. -/
theorem leading_tie_break_counterexample :
    best_choice_first_act obs6 = some 1 ∧
    highest_first_act obs6.hand = some 1 ∧
    obs6.hand.get? 0 = some (Card.mk Suit.denari Rank.N2) ∧
    obs6.hand.get? 1 = some (Card.mk Suit.denari Rank.N7) ∧
    Card.points (Card.mk Suit.denari Rank.N2) =
      Card.points (Card.mk Suit.denari Rank.N7) ∧
    order_index (Card.mk Suit.denari Rank.N7).rank <
      order_index (Card.mk Suit.denari Rank.N2).rank := by
  decide

/-- C6 amended -- for every non-empty hand, when the heuristic policy leads
a trick (no lead card in the observation) it plays the first card whose
`(points, strength-utility)` key is lexicographically greatest: the
highest-point card, with point ties broken by choosing the card HIGHEST in
the strength order (the `2` is kept in reserve, not the `7`), contrary to
the claimed lowest-strength tie-break. -/
theorem leading_plays_highest (obs : Observation) (hlead : obs.lead_card = none)
    (hne : obs.hand ≠ []) :
    ∃ i ci, best_choice_first_act obs = some i ∧ obs.hand.get? i = some ci ∧
      highest_first_act obs.hand = some i ∧
      ∀ j cj, obs.hand.get? j = some cj →
        cj.points < ci.points ∨
          (cj.points = ci.points ∧ _rank_value cj.rank ≤ _rank_value ci.rank) := by
  obtain ⟨i, ci, hact, hget, hdom⟩ := highest_first_act_spec obs.hand hne
  refine ⟨i, ci, ?_, hget, hact, ?_⟩
  · unfold best_choice_first_act
    rw [hlead, hact]
  · intro j cj hgetj
    have := hdom j cj hgetj
    unfold prodLt cardKey at this
    simp only [Card.points] at *
    omega

/-- Witness for the amended C6: on the concrete hand [2 of denari,
7 of denari] the agent plays index 1 and the key-domination clauses hold. -/
theorem leading_plays_highest_witness :
    ∃ i ci, best_choice_first_act obs6 = some i ∧ obs6.hand.get? i = some ci ∧
      highest_first_act obs6.hand = some i ∧
      ∀ j cj, obs6.hand.get? j = some cj →
        cj.points < ci.points ∨
          (cj.points = ci.points ∧ _rank_value cj.rank ≤ _rank_value ci.rank) :=
  leading_plays_highest obs6 rfl (by decide)

/-- `card_id(c) = (c.suit.value, c.rank)` of heuristics.py: the value pair
identifying a card (injective, since a card IS its suit and rank). -/
def card_id (c : Card) : Suit × Rank := (c.suit, c.rank)

/-- Position of a suit's string value in Python string order:
"bastoni" < "coppe" < "denari" < "spade". -/
def suitStrOrd : Suit → Nat
  | Suit.bastoni => 0
  | Suit.coppe => 1
  | Suit.denari => 2
  | Suit.spade => 3

/-- Position of a rank's string in Python string (ASCII) order:
"2" < "3" < "4" < "5" < "6" < "7" < "A" < "C" < "F" < "K". -/
def rankStrOrd : Rank → Nat
  | Rank.N2 => 0
  | Rank.N3 => 1
  | Rank.N4 => 2
  | Rank.N5 => 3
  | Rank.N6 => 4
  | Rank.N7 => 5
  | Rank.A => 6
  | Rank.C => 7
  | Rank.F => 8
  | Rank.K => 9

/-- `sorted(...)` on card-id tuples, in Python's lexicographic string order. -/
def sortCids (l : List (Suit × Rank)) : List (Suit × Rank) :=
  l.mergeSort (fun a b => decide (suitStrOrd a.1 < suitStrOrd b.1 ∨
    (suitStrOrd a.1 = suitStrOrd b.1 ∧ rankStrOrd a.2 ≤ rankStrOrd b.2)))

/-- The information-set key of `ISMCTSAgent._obs_key`: player, trump suit,
visible lead card id, number of played cards, stock count, and the sorted
multiset of the player's hand card ids. -/
structure ISKey where
  player : Nat
  briscola : Suit
  lead : Option (Suit × Rank)
  played_len : Nat
  deck_count : Nat
  hand_ids : List (Suit × Rank)
deriving DecidableEq

/-- `_obs_key(env, player)`. -/
def obs_key (s : GameState) (p : Nat) : ISKey :=
  { player := p
    briscola := s.briscola
    lead := (observe s p).lead_card.map card_id
    played_len := (observe s p).played.length
    deck_count := (observe s p).deck_count
    hand_ids := sortCids ((observe s p).hand.map card_id) }

/-- `NodeStats` of mcts.py: per-action visit counts, return sums and priors
(as association lists, like the Python dictionaries), and the legal actions
recorded at node creation. -/
structure NodeStats where
  N : List ((Suit × Rank) × Nat)
  W : List ((Suit × Rank) × ℚ)
  P : List ((Suit × Rank) × ℚ)
  actions : List (Suit × Rank)

/-- `node.N.get(a, 0)`. -/
def visits (node : NodeStats) (a : Suit × Rank) : Nat := (node.N.lookup a).getD 0

/-- The `max(node.actions, key=...)` loop: first action of maximal visit
count (replacement only on strictly more visits). -/
def maxNLoop (node : NodeStats) : List (Suit × Rank) →
    (Suit × Rank) × Nat → (Suit × Rank) × Nat
  | [], best => best
  | a :: rest, best =>
    maxNLoop node rest (if best.2 < visits node a then (a, visits node a) else best)

/-- `best_a = max(node.actions, key=lambda a: node.N.get(a, 0))`;
`max` on an empty action list raises (`none`). -/
def best_action (node : NodeStats) : Option (Suit × Rank) :=
  match node.actions with
  | [] => none
  | a :: rest => some (maxNLoop node rest (a, visits node a)).1

/-- The decision tail of `ISMCTSAgent.act` after the iteration loop: read
the node at the root information-set key; if it is missing or has no
recorded actions, fall back to the heuristic policy on the real
observation; otherwise return the index in the observed hand of the action
with the highest visit count (`next` raising `StopIteration` is `none`).
The tree is whatever mapping the float-valued simulation loop produced. -/
def ismcts_act_tail (tree : List (ISKey × NodeStats)) (s : GameState)
    (obs : Observation) : Option Nat :=
  match tree.lookup (obs_key s obs.player) with
  | none => best_choice_first_act obs
  | some node =>
    match best_action node with
    | none => best_choice_first_act obs
    | some best_a => obs.hand.findIdx? (fun c => card_id c == best_a)

theorem minLoop_mem (ps : List (Nat × Card)) :
    ∀ best : Nat × (Nat × Nat),
    minLoop ps best = best ∨ ∃ p ∈ ps, minLoop ps best = (p.1, cardKey p.2) := by
  induction ps with
  | nil => intro best; exact Or.inl rfl
  | cons p rest ih =>
    intro best
    simp only [minLoop]
    by_cases hlt : prodLt (cardKey p.2) best.2
    · rw [if_pos hlt]
      rcases ih (p.1, cardKey p.2) with h | ⟨q, hq, hres⟩
      · exact Or.inr ⟨p, List.mem_cons_self p rest, h⟩
      · exact Or.inr ⟨q, List.mem_cons_of_mem p hq, hres⟩
    · rw [if_neg hlt]
      rcases ih best with h | ⟨q, hq, hres⟩
      · exact Or.inl h
      · exact Or.inr ⟨q, List.mem_cons_of_mem p hq, hres⟩

theorem lowest_card_idx_valid (hand : List Card) (hne : hand ≠ []) :
    ∃ i ci, _lowest_card_idx hand = some i ∧ hand.get? i = some ci := by
  cases henum : hand.enum with
  | nil =>
    exfalso
    apply hne
    cases hand with
    | nil => rfl
    | cons c cs => simp [List.enum] at henum
  | cons p rest =>
    have hact : _lowest_card_idx hand = some (minLoop rest (p.1, cardKey p.2)).1 := by
      unfold _lowest_card_idx
      rw [henum]
    rcases minLoop_mem rest (p.1, cardKey p.2) with hres | ⟨q, hq, hres⟩
    · exact ⟨p.1, p.2, by rw [hact, hres],
        List.mem_enum_iff_get?.mp (henum ▸ List.mem_cons_self p rest)⟩
    · exact ⟨q.1, q.2, by rw [hact, hres],
        List.mem_enum_iff_get?.mp (henum ▸ List.mem_cons_of_mem p hq)⟩

/-- The heuristic fallback returns a valid hand index on every observation
with a non-empty hand (it never throws there). -/
theorem best_choice_valid (obs : Observation) (hne : obs.hand ≠ []) :
    ∃ i ci, best_choice_first_act obs = some i ∧ obs.hand.get? i = some ci := by
  unfold best_choice_first_act
  cases hlc : obs.lead_card with
  | none =>
    obtain ⟨i, ci, hact, hget, _⟩ := highest_first_act_spec obs.hand hne
    exact ⟨i, ci, hact, hget⟩
  | some lead =>
    dsimp only []
    by_cases hpts : lead.points = 0
    · rw [if_pos hpts]
      exact lowest_card_idx_valid obs.hand hne
    · rw [if_neg hpts]
      cases hf1 : obs.hand.findIdx? (fun c =>
          decide (c.suit = lead.suit) &&
          decide (trick_winner lead c obs.briscola = some 1)) with
      | some i =>
        have hi := (List.findIdx?_eq_some_iff_findIdx_eq.mp hf1).1
        obtain ⟨ci, hget⟩ : ∃ c, obs.hand.get? i = some c :=
          ⟨obs.hand.get ⟨i, hi⟩, List.get?_eq_get hi⟩
        exact ⟨i, ci, rfl, hget⟩
      | none =>
        cases hf2 : obs.hand.findIdx? (fun c =>
            decide (c.suit = obs.briscola) &&
            decide (trick_winner lead c obs.briscola = some 1)) with
        | some i =>
          have hi := (List.findIdx?_eq_some_iff_findIdx_eq.mp hf2).1
          obtain ⟨ci, hget⟩ : ∃ c, obs.hand.get? i = some c :=
            ⟨obs.hand.get ⟨i, hi⟩, List.get?_eq_get hi⟩
          exact ⟨i, ci, rfl, hget⟩
        | none =>
          exact lowest_card_idx_valid obs.hand hne

theorem maxNLoop_spec (node : NodeStats) (ps : List (Suit × Rank)) :
    ∀ best : (Suit × Rank) × Nat,
    (maxNLoop node ps best = best ∨
      ∃ a ∈ ps, maxNLoop node ps best = (a, visits node a)) ∧
    best.2 ≤ (maxNLoop node ps best).2 ∧
    ∀ a ∈ ps, visits node a ≤ (maxNLoop node ps best).2 := by
  induction ps with
  | nil =>
    intro best
    exact ⟨Or.inl rfl, Nat.le_refl _, by simp⟩
  | cons a rest ih =>
    intro best
    simp only [maxNLoop]
    by_cases hlt : best.2 < visits node a
    · rw [if_pos hlt]
      obtain ⟨h1, h2, h3⟩ := ih (a, visits node a)
      refine ⟨?_, ?_, ?_⟩
      · rcases h1 with h | ⟨b, hb, hres⟩
        · exact Or.inr ⟨a, List.mem_cons_self a rest, h⟩
        · exact Or.inr ⟨b, List.mem_cons_of_mem a hb, hres⟩
      · exact Nat.le_trans (Nat.le_of_lt hlt) h2
      · intro b hb
        rcases List.mem_cons.mp hb with rfl | hb2
        · exact h2
        · exact h3 b hb2
    · rw [if_neg hlt]
      obtain ⟨h1, h2, h3⟩ := ih best
      refine ⟨?_, h2, ?_⟩
      · rcases h1 with h | ⟨b, hb, hres⟩
        · exact Or.inl h
        · exact Or.inr ⟨b, List.mem_cons_of_mem a hb, hres⟩
      · intro b hb
        rcases List.mem_cons.mp hb with rfl | hb2
        · exact Nat.le_trans (Nat.le_of_not_lt hlt) h2
        · exact h3 b hb2

theorem best_action_spec (node : NodeStats) (hne : node.actions ≠ []) :
    ∃ best, best_action node = some best ∧ best ∈ node.actions ∧
      ∀ a ∈ node.actions, visits node a ≤ visits node best := by
  cases hact : node.actions with
  | nil => exact absurd hact hne
  | cons a rest =>
    obtain ⟨h1, h2, h3⟩ := maxNLoop_spec node rest (a, visits node a)
    have hba : best_action node = some (maxNLoop node rest (a, visits node a)).1 := by
      unfold best_action
      rw [hact]
    rcases h1 with hres | ⟨b, hb, hres⟩
    · refine ⟨a, by rw [hba, hres], hact ▸ List.mem_cons_self a rest, ?_⟩
      intro x hx
      rcases List.mem_cons.mp hx with rfl | hx2
      · exact Nat.le_refl _
      · have := h3 x hx2
        rw [hres] at this
        exact this
    · refine ⟨b, by rw [hba, hres], hact ▸ List.mem_cons_of_mem a hb, ?_⟩
      intro x hx
      have hvb : (maxNLoop node rest (a, visits node a)).2 = visits node b := by
        rw [hres]
      rcases List.mem_cons.mp hx with rfl | hx2
      · rw [← hvb]; exact h2
      · rw [← hvb]; exact h3 x hx2

/-- C5 -- for every non-terminal state whose acting player has a non-empty
hand, the decision tail of the search agent's `act` returns a valid index
into the observed hand; when the root node exists and records actions, the
returned index is that of the action with the highest visit count (not the
highest mean value); when the root node is missing or has no recorded
actions it falls back to the heuristic policy on the real observation, and
that fallback never throws.  The hypothesis on `tree` holds for every tree
the simulation loop builds, because `_select_expand` creates each node with
`actions` drawn from the same hand whose sorted ids form the node's key. -/
theorem ismcts_act_returns_valid_index (tree : List (ISKey × NodeStats))
    (s : GameState) (obs : Observation)
    (hdone : s.done = false) (hobs : obs = observe s s.turn_player)
    (hne : obs.hand ≠ [])
    (htree : ∀ k n, tree.lookup k = some n → ∀ a ∈ n.actions, a ∈ k.hand_ids) :
    (∃ i, ismcts_act_tail tree s obs = some i ∧ i < obs.hand.length) ∧
    (∀ node best, tree.lookup (obs_key s obs.player) = some node →
      best_action node = some best →
      (∀ a ∈ node.actions, visits node a ≤ visits node best) ∧
      ismcts_act_tail tree s obs =
        obs.hand.findIdx? (fun c => card_id c == best)) ∧
    ((tree.lookup (obs_key s obs.player) = none ∨
      (∃ node, tree.lookup (obs_key s obs.player) = some node ∧
        best_action node = none)) →
      ismcts_act_tail tree s obs = best_choice_first_act obs) := by
  have hfallback : ∃ i, best_choice_first_act obs = some i ∧ i < obs.hand.length := by
    obtain ⟨i, ci, hact, hget⟩ := best_choice_valid obs hne
    exact ⟨i, hact, (List.get?_eq_some.mp hget).1⟩
  have hobs_eq : observe s obs.player = obs := by rw [hobs, observe_player]
  refine ⟨?_, ?_, ?_⟩
  · unfold ismcts_act_tail
    cases hlk : tree.lookup (obs_key s obs.player) with
    | none => exact hfallback
    | some node =>
      dsimp only []
      cases hba : best_action node with
      | none => exact hfallback
      | some best_a =>
        dsimp only []
        have hact_ne : node.actions ≠ [] := by
          intro hnil
          unfold best_action at hba
          rw [hnil] at hba
          cases hba
        obtain ⟨b, hb_eq, hb_mem, _⟩ := best_action_spec node hact_ne
        have hbb : b = best_a := by
          rw [hba] at hb_eq
          exact (Option.some.injEq _ _).mp hb_eq.symm
        subst hbb
        have hkey : b ∈ (obs_key s obs.player).hand_ids := htree _ _ hlk b hb_mem
        have hhand_ids : (obs_key s obs.player).hand_ids =
            sortCids (obs.hand.map card_id) := by
          unfold obs_key
          rw [hobs_eq]
        rw [hhand_ids] at hkey
        have hmem2 : b ∈ obs.hand.map card_id :=
          (List.mergeSort_perm _ _).mem_iff.mp hkey
        obtain ⟨c, hc_mem, hc_id⟩ := List.mem_map.mp hmem2
        cases hfind : obs.hand.findIdx? (fun c => card_id c == b) with
        | none =>
          exfalso
          have := List.findIdx?_eq_none_iff.mp hfind c hc_mem
          rw [hc_id] at this
          simp at this
        | some i =>
          exact ⟨i, rfl, (List.findIdx?_eq_some_iff_findIdx_eq.mp hfind).1⟩
  · intro node best hlk hba
    have hact_ne : node.actions ≠ [] := by
      intro hnil
      unfold best_action at hba
      rw [hnil] at hba
      cases hba
    obtain ⟨b, hb_eq, _, hb_dom⟩ := best_action_spec node hact_ne
    have hbb : b = best := by
      rw [hba] at hb_eq
      exact (Option.some.injEq _ _).mp hb_eq.symm
    subst hbb
    constructor
    · exact hb_dom
    · unfold ismcts_act_tail
      rw [hlk]
      dsimp only []
      rw [hba]
  · intro hcase
    unfold ismcts_act_tail
    rcases hcase with hnone | ⟨node, hsome, hba⟩
    · rw [hnone]
    · rw [hsome]
      dsimp only []
      rw [hba]

/-- Witness for C5: with an empty search tree (no recorded root node), the
decision tail on the concrete initial deal falls back to the heuristic
policy and returns a valid index. -/
theorem ismcts_act_returns_valid_index_witness :
    (∃ i, ismcts_act_tail [] initialWitness
        (observe initialWitness initialWitness.turn_player) = some i ∧
      i < (observe initialWitness initialWitness.turn_player).hand.length) ∧
    (∀ node best, ([] : List (ISKey × NodeStats)).lookup
        (obs_key initialWitness
          (observe initialWitness initialWitness.turn_player).player) = some node →
      best_action node = some best →
      (∀ a ∈ node.actions, visits node a ≤ visits node best) ∧
      ismcts_act_tail [] initialWitness
          (observe initialWitness initialWitness.turn_player) =
        (observe initialWitness initialWitness.turn_player).hand.findIdx?
          (fun c => card_id c == best)) ∧
    ((([] : List (ISKey × NodeStats)).lookup
        (obs_key initialWitness
          (observe initialWitness initialWitness.turn_player).player) = none ∨
      (∃ node, ([] : List (ISKey × NodeStats)).lookup
          (obs_key initialWitness
            (observe initialWitness initialWitness.turn_player).player) =
            some node ∧ best_action node = none)) →
      ismcts_act_tail [] initialWitness
          (observe initialWitness initialWitness.turn_player) =
        best_choice_first_act (observe initialWitness initialWitness.turn_player)) :=
  ismcts_act_returns_valid_index [] initialWitness
    (observe initialWitness initialWitness.turn_player) (by rfl) rfl (by decide)
    (fun k n h => by cases h)

/-- `_softmax(xs, temp)` of heuristics.py, over exact rationals with
`math.exp` abstracted as the function `e` (only its strict positivity
matters).  A non-positive temperature is replaced by `1e-6`; `max([])`
raises (`none`); a zero exponential sum falls back to `1.0` (Python's
`or`). -/
def _softmax (e : ℚ → ℚ) (xs : List ℚ) (temp : ℚ) : Option (List ℚ) :=
  let t := if temp ≤ 0 then 0.000001 else temp
  match xs.max? with
  | none => none
  | some m =>
    let exps := xs.map (fun x => e ((x - m) / t))
    let s0 := exps.sum
    let s := if s0 = 0 then 1 else s0
    some (exps.map (fun x => x / s))

/-- The per-card raw score in the following branch of
`move_priors_for_obs`. -/
def score_follow (br : Suit) (lead : Card) (trick_pts : Nat) (c : Card) : ℚ :=
  let wins := trick_winner lead c br = some 1
  let s : ℚ := 0
  let s :=
    if wins then
      let s := s + 2.0 + 0.15 * ((trick_pts : ℚ) + (c.points : ℚ))
      if c.suit ≠ br then s + 0.8
      else if trick_pts + c.points < 6 then s - 0.4 else s
    else
      let s := s + 0.2
      if c.suit = br then s - 1.0 else s
  if ¬ wins ∧ _rank_value c.rank ≥ 8 then s - 0.5 else s

/-- The per-card raw score in the leading branch of
`move_priors_for_obs`. -/
def score_lead (br : Suit) (c : Card) : ℚ :=
  let s : ℚ := 0
  let s := if c.suit ≠ br ∧ c.points = 0 ∧ _rank_value c.rank ≤ 4 then s + 1.2 else s
  let s := if c.suit ≠ br ∧ c.points > 0 then s - 0.3 else s
  let s :=
    if c.suit = br then
      let s := s - 0.6
      if _rank_value c.rank ≤ 4 then s + 0.2 else s
    else s
  if _rank_value c.rank ≥ 8 then s - 0.4 else s

/-- The key set of the Python `priors` dict: hand cards deduplicated by
`card_id` in first-insertion order (duplicate ids are the same card, so the
overwritten score is unchanged). -/
def dedup_hand : List Card → List Card
  | [] => []
  | c :: cs => c :: dedup_hand (cs.filter (fun x => decide (¬ card_id x = card_id c)))
termination_by l => l.length
decreasing_by
  simp only [List.length_cons]
  exact Nat.lt_succ_of_le (List.length_filter_le _ _)

/-- `move_priors_for_obs(obs, temp)`: raw scores per distinct hand card
(following or leading regime), softmax-normalised, returned as the
association of card ids to probabilities. -/
def move_priors_for_obs (e : ℚ → ℚ) (obs : Observation) (temp : ℚ) :
    Option (List ((Suit × Rank) × ℚ)) :=
  let cards := dedup_hand obs.hand
  let scores := cards.map (fun c =>
    match obs.lead_card with
    | some lead => score_follow obs.briscola lead obs.trick_points_so_far c
    | none => score_lead obs.briscola c)
  match _softmax e scores temp with
  | none => none
  | some probs => some (List.zip (cards.map card_id) probs)

theorem card_id_inj : ∀ x y : Card, card_id x = card_id y ↔ x = y := by decide

theorem dedup_hand_mem : ∀ (l : List Card) (x : Card),
    x ∈ dedup_hand l ↔ x ∈ l := by
  have key : ∀ (n : Nat) (l : List Card), l.length ≤ n → ∀ x,
      (x ∈ dedup_hand l ↔ x ∈ l) := by
    intro n
    induction n with
    | zero =>
      intro l hl x
      cases l with
      | nil => simp [dedup_hand]
      | cons c cs => simp at hl
    | succ k ih =>
      intro l hl x
      cases l with
      | nil => simp [dedup_hand]
      | cons c cs =>
        rw [dedup_hand]
        have hfl : (cs.filter (fun x => decide (¬ card_id x = card_id c))).length ≤ k := by
          have h1 := List.length_filter_le (fun x => decide (¬ card_id x = card_id c)) cs
          simp only [List.length_cons] at hl
          omega
        constructor
        · intro hx
          rcases List.mem_cons.mp hx with rfl | hx2
          · exact List.mem_cons_self _ _
          · have := (ih _ hfl x).mp hx2
            have := List.mem_filter.mp this
            exact List.mem_cons_of_mem c this.1
        · intro hx
          rcases List.mem_cons.mp hx with rfl | hx2
          · exact List.mem_cons_self _ _
          · by_cases hxc : x = c
            · rw [hxc]; exact List.mem_cons_self _ _
            · refine List.mem_cons_of_mem c ((ih _ hfl x).mpr ?_)
              refine List.mem_filter.mpr ⟨hx2, ?_⟩
              simp only [decide_eq_true_eq]
              rw [card_id_inj]
              exact hxc
  intro l x
  exact key l.length l (Nat.le_refl _) x

theorem sum_map_div (l : List ℚ) (d : ℚ) :
    (l.map (fun x => x / d)).sum = l.sum / d := by
  induction l with
  | nil => simp
  | cons x xs ih => simp [ih, add_div]

/-- C8 -- for every observation with a non-empty hand and every temperature,
the prior function returns a probability distribution over exactly the
cards in the hand: all entries are non-negative (indeed positive for a
positive exponential), the entries sum to exactly 1 (the exact-arithmetic
idealisation of the floating-point tolerance), no card outside the hand
receives mass, and a non-positive temperature is treated as the very small
positive value 1e-6, in both the leading and following branches. -/
theorem move_priors_distribution (e : ℚ → ℚ) (obs : Observation) (temp : ℚ)
    (hne : obs.hand ≠ []) (hpos : ∀ x, 0 < e x) :
    (∃ l, move_priors_for_obs e obs temp = some l ∧
      (∀ k, k ∈ l.map Prod.fst ↔ k ∈ obs.hand.map card_id) ∧
      (∀ q ∈ l.map Prod.snd, 0 ≤ q) ∧
      (l.map Prod.snd).sum = 1) ∧
    (temp ≤ 0 →
      move_priors_for_obs e obs temp = move_priors_for_obs e obs 0.000001) := by
  constructor
  · simp only [move_priors_for_obs, _softmax]
    have hcards : dedup_hand obs.hand ≠ [] := by
      cases hh : obs.hand with
      | nil => exact absurd hh hne
      | cons c cs => rw [dedup_hand]; exact List.cons_ne_nil _ _
    set cards := dedup_hand obs.hand with hcards_def
    set scores := cards.map (fun c =>
      match obs.lead_card with
      | some lead => score_follow obs.briscola lead obs.trick_points_so_far c
      | none => score_lead obs.briscola c) with hscores
    have hscne : scores ≠ [] := by
      rw [hscores]
      intro h
      exact hcards (List.map_eq_nil_iff.mp h)
    cases hmax : scores.max? with
    | none => exact absurd (List.max?_eq_none_iff.mp hmax) hscne
    | some m =>
      set t := if temp ≤ 0 then (0.000001 : ℚ) else temp with ht
      set exps := scores.map (fun x => e ((x - m) / t)) with hexps
      have hexps_pos : ∀ x ∈ exps, 0 < x := by
        intro x hx
        obtain ⟨y, _, hy⟩ := List.mem_map.mp hx
        rw [← hy]
        exact hpos _
      have hexps_ne : exps ≠ [] := by
        rw [hexps]
        intro h
        exact hscne (List.map_eq_nil_iff.mp h)
      have hsum_pos : 0 < exps.sum := List.sum_pos exps hexps_pos hexps_ne
      have hs0 : (if exps.sum = 0 then (1 : ℚ) else exps.sum) = exps.sum := by
        rw [if_neg (ne_of_gt hsum_pos)]
      have hlen : (exps.map (fun x => x /
          (if exps.sum = 0 then 1 else exps.sum))).length = (cards.map card_id).length := by
        simp [hexps, hscores]
      have hmap_snd : (List.zip (cards.map card_id) (exps.map (fun x => x /
          (if exps.sum = 0 then 1 else exps.sum)))).map Prod.snd =
          exps.map (fun x => x / (if exps.sum = 0 then 1 else exps.sum)) :=
        List.map_snd_zip _ _ (le_of_eq hlen)
      refine ⟨List.zip (cards.map card_id) (exps.map (fun x => x /
        (if exps.sum = 0 then 1 else exps.sum))), rfl, ?_, ?_, ?_⟩
      · intro k
        rw [List.map_fst_zip _ _ (le_of_eq hlen.symm)]
        constructor
        · intro hk
          obtain ⟨c, hc, hck⟩ := List.mem_map.mp hk
          exact List.mem_map.mpr ⟨c, (dedup_hand_mem obs.hand c).mp hc, hck⟩
        · intro hk
          obtain ⟨c, hc, hck⟩ := List.mem_map.mp hk
          exact List.mem_map.mpr ⟨c, (dedup_hand_mem obs.hand c).mpr hc, hck⟩
      · intro q hq
        rw [hmap_snd] at hq
        obtain ⟨x, hx, hxq⟩ := List.mem_map.mp hq
        rw [← hxq, hs0]
        exact le_of_lt (div_pos (hexps_pos x hx) hsum_pos)
      · rw [hmap_snd, hs0, sum_map_div, div_self (ne_of_gt hsum_pos)]
  · intro htemp
    simp only [move_priors_for_obs, _softmax]
    rw [if_pos htemp, if_neg (by norm_num)]

/-- A following-branch observation: the Ace of coppe is on the table with
trump spade, and the hand holds a winning trump, a winning same-suit card
and a losing discard. -/
def obs8 : Observation :=
  { player := 1
    hand := [Card.mk Suit.spade Rank.N2, Card.mk Suit.coppe Rank.N3,
             Card.mk Suit.denari Rank.N4]
    briscola := Suit.spade
    lead_card := some (Card.mk Suit.coppe Rank.A)
    deck_count := 30
    trick_points_so_far := 11
    played := [Card.mk Suit.coppe Rank.A]
    opponent_count := 3 }

/-- Witness for C8, covering both regimes: with a constant positive
exponential, the priors over the leading observation `obs6` (where a zero
temperature is treated as 1e-6) and over the following observation `obs8`
are each a probability distribution over exactly the hand's card ids. -/
theorem move_priors_distribution_witness :
    ((∃ l, move_priors_for_obs (fun _ => 1) obs6 0 = some l ∧
      (∀ k, k ∈ l.map Prod.fst ↔ k ∈ obs6.hand.map card_id) ∧
      (∀ q ∈ l.map Prod.snd, 0 ≤ q) ∧
      (l.map Prod.snd).sum = 1) ∧
    ((0 : ℚ) ≤ 0 →
      move_priors_for_obs (fun _ => 1) obs6 0 =
        move_priors_for_obs (fun _ => 1) obs6 0.000001)) ∧
    ((∃ l, move_priors_for_obs (fun _ => 1) obs8 1 = some l ∧
      (∀ k, k ∈ l.map Prod.fst ↔ k ∈ obs8.hand.map card_id) ∧
      (∀ q ∈ l.map Prod.snd, 0 ≤ q) ∧
      (l.map Prod.snd).sum = 1) ∧
    ((1 : ℚ) ≤ 0 →
      move_priors_for_obs (fun _ => 1) obs8 1 =
        move_priors_for_obs (fun _ => 1) obs8 0.000001)) :=
  ⟨move_priors_distribution (fun _ => 1) obs6 0 (by decide) (fun x => by norm_num),
   move_priors_distribution (fun _ => 1) obs8 1 (by decide) (fun x => by norm_num)⟩

/-- C10 -- `trick_winner` is total: on every pair of cards and every trump
suit it evaluates to 0 or 1 and never propagates the failure of
`stronger_in_suit` (which fails fast on differing suits), because that
comparison is reached only on branches where the two suits are already
known equal. -/
theorem trick_winner_total (lead follow : Card) (briscola : Suit) :
    trick_winner lead follow briscola = some 0 ∨
    trick_winner lead follow briscola = some 1 := by
  revert lead follow briscola
  decide

end Briscola
